import Mathlib

/-!
Shallow embedding of the chsvm repository (MarcosAndradeV/chsvm):
the stack virtual machine of `src/vm.rs` and the bytecode compiler of
`src/compiler/ir.rs`, together with theorems settling the frozen claims
about them.
-/

namespace VM

/-- Modelled from the spec: the module `instructions.rs` is not under `src/`;
per the spec an instruction is an opcode tag plus an optional integer operand.
The opcode tags are exactly the ones matched in `CHSVM::execute_next_instr`. -/
inductive InstrKind where
  | push
  | dup
  | swap
  | pop
  | add
  | minus
  | mul
  | div
  | jmp
  | jmpIf
  | eq
  | gt
  | gte
  | lt
  | lte
  | print
  | debug
  | nop
  | halt
deriving DecidableEq, Repr

/-- Modelled from the spec: an instruction of the VM instruction set, an
opcode tag plus an optional operand.  The VM reads operands as `i64`
(`Word`), modelled as `Int`. -/
structure Instr where
  kind : InstrKind
  operands : Option Int
deriving DecidableEq, Repr

/-- The runtime traps of `vm.rs` (`enum Trap`). -/
inductive Trap where
  | stackOverflow
  | stackUnderflow
  | divByZero
  | operandNotProvided
  | addersOutOfBounds
  | programEndWithoutHalt
deriving DecidableEq, Repr

/-- `const STACK_CAPACITY: usize = 1024;` in `vm.rs`. -/
def STACK_CAPACITY : Nat := 1024

/-- The VM state (`struct CHSVM`).  The stack models `Vec<Word>` with index 0
the bottom of the vector; `Vec::push`/`Vec::pop` act on the end of the list. -/
structure CHSVM where
  stack : List Int
  is_halted : Bool
  ip : Nat
  sp : Nat
  program : List Instr
deriving DecidableEq, Repr

/-- `CHSVM::new`: empty stack, sp = 0, ip = 0, not halted.
(The physical `Vec` is created with capacity `STACK_CAPACITY`; the capacity is
modelled as the constant `STACK_CAPACITY` in `push_stack`.) -/
def CHSVM.new (program : List Instr) : CHSVM :=
  { stack := [], is_halted := false, ip := 0, sp := 0, program := program }

/-- Outcome of one `execute_next_instr` call.  `vmPanic` models the places
where the Rust source panics (`todo!()` in the `Jmp`/`JmpIf` operand matches
and in the `Dup` stack read) instead of returning a `Result`. -/
inductive StepResult where
  | ok
  | trap (t : Trap)
  | vmPanic
deriving DecidableEq, Repr

/-- `CHSVM::pop_stack`: decrement `sp` unless it is zero, then `Vec::pop`
(remove and return the last element), `None` becoming `StackUnderflow`. -/
def pop_stack (vm : CHSVM) : CHSVM × Except Trap Int :=
  let vm := if vm.sp = 0 then vm else { vm with sp := vm.sp - 1 }
  match vm.stack.getLast? with
  | some v => ({ vm with stack := vm.stack.dropLast }, Except.ok v)
  | none => (vm, Except.error Trap.stackUnderflow)

/-- `CHSVM::push_stack`: fault `StackOverflow` when `sp + 1` exceeds the
stack capacity (`STACK_CAPACITY`, never grown on the paths the VM can reach),
otherwise increment `sp` and `Vec::push` the value. -/
def push_stack (vm : CHSVM) (value : Int) : CHSVM × Except Trap Unit :=
  if vm.sp + 1 > STACK_CAPACITY then (vm, Except.error Trap.stackOverflow)
  else ({ vm with sp := vm.sp + 1, stack := vm.stack ++ [value] }, Except.ok ())

/-- The `?` operator on a `pop_stack` call inside `execute_next_instr`:
propagate a trap, otherwise continue with the popped value. -/
def bindPop (r : CHSVM × Except Trap Int) (k : CHSVM → Int → CHSVM × StepResult) :
    CHSVM × StepResult :=
  match r with
  | (vm, Except.ok v) => k vm v
  | (vm, Except.error t) => (vm, StepResult.trap t)

/-- Lift the result of a final `push_stack` call to a step outcome. -/
def toStep (r : CHSVM × Except Trap Unit) : CHSVM × StepResult :=
  match r with
  | (vm, Except.ok _) => (vm, StepResult.ok)
  | (vm, Except.error t) => (vm, StepResult.trap t)

/-- `addr as usize` on an `i64`: two's-complement reinterpretation. -/
def usizeOfI64 (a : Int) : Nat := (a % (2 ^ 64 : Int)).toNat

/-- `CHSVM::execute_next_instr`, arm for arm.  The instruction pointer is
incremented first; running past the end traps `ProgramEndWithoutHalt`. -/
def execute_next_instr (vm0 : CHSVM) : CHSVM × StepResult :=
  let vm := { vm0 with ip := vm0.ip + 1 }
  if vm.ip > vm.program.length then (vm, StepResult.trap Trap.programEndWithoutHalt)
  else
    match vm.program.get? (vm.ip - 1) with
    | none => (vm, StepResult.vmPanic)
    | some instr =>
      match instr.kind with
      | InstrKind.push =>
        match instr.operands with
        | some value => toStep (push_stack vm value)
        | none => (vm, StepResult.trap Trap.operandNotProvided)
      | InstrKind.dup =>
        match instr.operands with
        | some addr =>
          if usizeOfI64 addr > vm.program.length then
            (vm, StepResult.trap Trap.stackOverflow)
          else if (vm.sp : Int) - addr ≤ 0 then
            (vm, StepResult.trap Trap.stackUnderflow)
          else
            match vm.stack.get? (vm.sp - 1 - usizeOfI64 addr) with
            | some value => toStep (push_stack vm value)
            | none => (vm, StepResult.vmPanic)
        | none => (vm, StepResult.trap Trap.operandNotProvided)
      | InstrKind.swap =>
        if vm.stack.length ≥ 2 then
          bindPop (pop_stack vm) fun vm op1 =>
          bindPop (pop_stack vm) fun vm op2 =>
          match push_stack vm op1 with
          | (vm, Except.ok _) => toStep (push_stack vm op2)
          | (vm, Except.error t) => (vm, StepResult.trap t)
        else (vm, StepResult.trap Trap.stackUnderflow)
      | InstrKind.pop =>
        if vm.stack.length ≥ 1 then
          bindPop (pop_stack vm) fun vm _ => (vm, StepResult.ok)
        else (vm, StepResult.trap Trap.stackUnderflow)
      | InstrKind.add =>
        if vm.stack.length ≥ 2 then
          bindPop (pop_stack vm) fun vm op1 =>
          bindPop (pop_stack vm) fun vm op2 =>
          toStep (push_stack vm (op1 + op2))
        else (vm, StepResult.trap Trap.stackUnderflow)
      | InstrKind.minus =>
        if vm.stack.length ≥ 2 then
          bindPop (pop_stack vm) fun vm op2 =>
          bindPop (pop_stack vm) fun vm op1 =>
          toStep (push_stack vm (op1 - op2))
        else (vm, StepResult.trap Trap.stackUnderflow)
      | InstrKind.mul =>
        if vm.stack.length ≥ 2 then
          bindPop (pop_stack vm) fun vm op1 =>
          bindPop (pop_stack vm) fun vm op2 =>
          toStep (push_stack vm (op1 * op2))
        else (vm, StepResult.trap Trap.stackUnderflow)
      | InstrKind.div =>
        if vm.stack.length ≥ 2 then
          bindPop (pop_stack vm) fun vm op2 =>
          bindPop (pop_stack vm) fun vm op1 =>
          if op2 = 0 then (vm, StepResult.trap Trap.divByZero)
          else toStep (push_stack vm (op1 / op2))
        else (vm, StepResult.trap Trap.stackUnderflow)
      | InstrKind.jmp =>
        match instr.operands with
        | some addrs =>
          if addrs < 0 ∨ usizeOfI64 addrs > vm.program.length then
            (vm, StepResult.trap Trap.addersOutOfBounds)
          else ({ vm with ip := usizeOfI64 addrs }, StepResult.ok)
        | none => (vm, StepResult.vmPanic)
      | InstrKind.jmpIf =>
        bindPop (pop_stack vm) fun vm op1 =>
        match instr.operands with
        | some addrs =>
          if addrs < 0 ∨ usizeOfI64 addrs > vm.program.length then
            (vm, StepResult.trap Trap.addersOutOfBounds)
          else if op1 = 1 then ({ vm with ip := usizeOfI64 addrs }, StepResult.ok)
          else (vm, StepResult.ok)
        | none => (vm, StepResult.vmPanic)
      | InstrKind.eq =>
        if vm.stack.length ≥ 2 then
          bindPop (pop_stack vm) fun vm op1 =>
          bindPop (pop_stack vm) fun vm op2 =>
          toStep (push_stack vm (if op1 = op2 then 1 else 0))
        else (vm, StepResult.trap Trap.stackUnderflow)
      | InstrKind.gt =>
        if vm.stack.length ≥ 2 then
          bindPop (pop_stack vm) fun vm op2 =>
          bindPop (pop_stack vm) fun vm op1 =>
          toStep (push_stack vm (if op1 < op2 then 1 else 0))
        else (vm, StepResult.trap Trap.stackUnderflow)
      | InstrKind.gte =>
        if vm.stack.length ≥ 2 then
          bindPop (pop_stack vm) fun vm op2 =>
          bindPop (pop_stack vm) fun vm op1 =>
          toStep (push_stack vm (if op1 ≤ op2 then 1 else 0))
        else (vm, StepResult.trap Trap.stackUnderflow)
      | InstrKind.lt =>
        if vm.stack.length ≥ 2 then
          bindPop (pop_stack vm) fun vm op2 =>
          bindPop (pop_stack vm) fun vm op1 =>
          toStep (push_stack vm (if op1 > op2 then 1 else 0))
        else (vm, StepResult.trap Trap.stackUnderflow)
      | InstrKind.lte =>
        if vm.stack.length ≥ 2 then
          bindPop (pop_stack vm) fun vm op2 =>
          bindPop (pop_stack vm) fun vm op1 =>
          toStep (push_stack vm (if op1 ≥ op2 then 1 else 0))
        else (vm, StepResult.trap Trap.stackUnderflow)
      | InstrKind.print =>
        if vm.stack.length ≥ 1 then
          bindPop (pop_stack vm) fun vm _ => (vm, StepResult.ok)
        else (vm, StepResult.trap Trap.stackUnderflow)
      | InstrKind.debug => (vm, StepResult.ok)
      | InstrKind.nop => (vm, StepResult.ok)
      | InstrKind.halt => ({ vm with is_halted := true }, StepResult.ok)

end VM

namespace IR

/-- `enum Operation` of `compiler/ir.rs`. -/
inductive Operation where
  | pop
  | dup
  | dup2
  | swap
  | over
  | add
  | minus
  | mul
  | div
  | mod
  | eq
  | neq
  | gt
  | gte
  | lte
  | lt
  | land
  | lor
  | shl
  | shr
  | bitand
  | bitor
deriving DecidableEq, Repr

/-- `enum BuildinOp` of `compiler/ir.rs`. -/
inductive BuildinOp where
  | idxGet
  | idxSet
  | len
  | println
  | print
  | debug
  | funcCall
deriving DecidableEq, Repr

/-- `impl From<&BuildinOp> for usize`. -/
def buildinToUsize : BuildinOp → Nat
  | BuildinOp.idxGet => 0
  | BuildinOp.idxSet => 1
  | BuildinOp.len => 2
  | BuildinOp.println => 3
  | BuildinOp.print => 4
  | BuildinOp.debug => 5
  | BuildinOp.funcCall => 12

/-- Modelled from the spec: the compiler-side opcode set (`instructions.rs` is
not under `src/`).  `compiler/ir.rs` emits exactly these opcodes; each plain
operator lowers to its own dedicated opcode (`Opcode::from(&Operation)`),
modelled by the embedding `opOf`. -/
inductive Opcode where
  | const
  | bind
  | unbind
  | globalStore
  | globalLoad
  | pushBind
  | buildin
  | jmpIf
  | jmp
  | opOf (o : Operation)
deriving DecidableEq, Repr

/-- Modelled from the spec: a compiler-side instruction, an opcode tag with an
optional operand (`Instr::new(opcode, operand)`); the compiler passes `usize`
operands (addresses, slot indices, constant indices, arity counts). -/
structure Instr where
  opcode : Opcode
  operands : Option Nat
deriving DecidableEq, Repr

/-- Modelled from the spec: runtime constant-pool values (`value.rs` is not
under `src/`) — 64-bit integers, strings, lists.  The `RefCell` shared-mutable
wrapping of lists is immaterial to compilation and is not modelled. -/
inductive Value where
  | int64 (n : Int)
  | str (s : String)
  | list (xs : List Value)

/-- The expression tree consumed by the compiler (`enum Expr` of
`compiler/ir.rs`); the payload structs `IfExpr`, `WhileExpr`, `VarExpr`,
`PeekExpr` and `ListLiteral` are inlined as constructor fields.
`whlie` is the source's spelling. -/
inductive Expr where
  | op (o : Operation)
  | buildin (b : BuildinOp)
  | intExpr (v : String)
  | strExpr (v : String)
  | listExpr (v : List Value)
  | identExpr (v : String)
  | ifE (cond : List Expr) (if_branch : List Expr) (else_branch : Option (List Expr))
  | whlie (cond : List Expr) (while_block : List Expr)
  | var (name : String) (value : List Expr)
  | peek (names : List String) (body : List Expr)
  | assigin (v : String)
  | set
  | indexExpr

/-- `impl fmt::Display for Expr`. -/
def exprDisplay : Expr → String
  | Expr.op _ => "Op"
  | Expr.buildin _ => "Buildin"
  | Expr.intExpr _ => "IntExpr"
  | Expr.strExpr _ => "StrExpr"
  | Expr.ifE _ _ _ => "If"
  | Expr.whlie _ _ => "Whlie"
  | Expr.var _ _ => "Var"
  | Expr.peek _ _ => "Peek"
  | Expr.listExpr _ => "ListExpr"
  | Expr.identExpr _ => "Identifier"
  | Expr.assigin _ => "Assigin"
  | Expr.set => "Set"
  | Expr.indexExpr => "IndexExpr"

/-- Compile-time failure: `GenericError` with its message, or a Rust panic
(`.parse().unwrap()` on a malformed integer literal). -/
inductive CErr where
  | generic (msg : String)
  | rustPanic
deriving DecidableEq, Repr

/-- `HashMap::get`, on the association-list model of `HashMap<String, usize>`:
value of the first entry with the given key. -/
def mapGet (m : List (String × Nat)) (k : String) : Option Nat :=
  match m with
  | [] => none
  | (a, b) :: rest => if a = k then some b else mapGet rest k

/-- `HashMap::remove` (the removed value is never used by the compiler):
drop the entry with the given key. -/
def mapRemove (m : List (String × Nat)) (k : String) : List (String × Nat) :=
  m.filter (fun p => ¬ p.1 = k)

/-- `HashMap::insert`: map the key to the value and return the previous
value, if any.  Maps built by these operations have one entry per key, so
`List.length` agrees with `HashMap::len`. -/
def mapInsert (m : List (String × Nat)) (k : String) (v : Nat) :
    List (String × Nat) × Option Nat :=
  ((k, v) :: mapRemove m k, mapGet m k)

/-- `struct IrParser`, without the front-end expression iterator (the input
sequence is passed to the compile functions explicitly). -/
structure IrParser where
  instrs : List Instr
  consts : List Value
  var_def : List (String × Nat)
  local_def : List (String × Nat)
  var_count : Nat

/-- `IrParser::new`: everything empty. -/
def IrParser.new : IrParser :=
  { instrs := [], consts := [], var_def := [], local_def := [], var_count := 0 }

/-- `struct Bytecode` (from the `instructions` module): the instruction
sequence plus the constant pool. -/
structure Bytecode where
  program : List Instr
  consts : List Value

/-- The name-registration loop of `IrParser::peek_expr`
(`for e in expr.names.iter().rev() { ... }`), called on the reversed name
list: for each name, error if it is a global, otherwise insert it at position
`local_def.len()`, recording the shadowed previous position if any. -/
def peekBindLoop (varDef : List (String × Nat)) :
    List String → List (String × Nat) → List (String × Nat) →
    Except CErr (List (String × Nat) × List (String × Nat))
  | [], ld, sh => Except.ok (ld, sh)
  | e :: rest, ld, sh =>
    let local_count := ld.length
    if (mapGet varDef e).isSome then
      Except.error (CErr.generic ("Peek " ++ e ++ " is already a variable name"))
    else
      match mapInsert ld e local_count with
      | (ld1, some shadow) => peekBindLoop varDef rest ld1 (sh ++ [(e, shadow)])
      | (ld1, none) => peekBindLoop varDef rest ld1 sh

/-- `IrParser::simple_expr`. -/
def simple_expr : Expr → IrParser → Except CErr IrParser
  | Expr.intExpr v, p =>
    match v.toInt? with
    | some n =>
      let consts := p.consts ++ [Value.int64 n]
      Except.ok { p with consts := consts,
                         instrs := p.instrs ++ [(Instr.mk Opcode.const (some (consts.length - 1)))] }
    | none => Except.error CErr.rustPanic
  | Expr.strExpr v, p =>
    let consts := p.consts ++ [Value.str v]
    Except.ok { p with consts := consts,
                       instrs := p.instrs ++ [(Instr.mk Opcode.const (some (consts.length - 1)))] }
  | Expr.listExpr v, p =>
    let consts := p.consts ++ [Value.list v]
    Except.ok { p with consts := consts,
                       instrs := p.instrs ++ [(Instr.mk Opcode.const (some (consts.length - 1)))] }
  | Expr.op v, p =>
    Except.ok { p with instrs := p.instrs ++ [(Instr.mk (Opcode.opOf v) none)] }
  | Expr.buildin v, p =>
    Except.ok { p with instrs := p.instrs ++ [(Instr.mk Opcode.buildin (some (buildinToUsize v)))] }
  | Expr.identExpr val, p =>
    match mapGet p.local_def val with
    | some v => Except.ok { p with instrs := p.instrs ++ [(Instr.mk Opcode.pushBind (some v))] }
    | none =>
      match mapGet p.var_def val with
      | some v => Except.ok { p with instrs := p.instrs ++ [(Instr.mk Opcode.globalLoad (some v))] }
      | none => Except.error (CErr.generic (val ++ " is not defined"))
  | Expr.assigin val, p =>
    match mapGet p.var_def val with
    | some v => Except.ok { p with instrs := p.instrs ++ [(Instr.mk Opcode.globalStore (some v))] }
    | none =>
      let var_ptr := p.var_count
      let p := { p with var_count := p.var_count + 1 }
      let p := { p with var_def := (mapInsert p.var_def val var_ptr).1 }
      Except.ok { p with instrs := p.instrs ++ [(Instr.mk Opcode.globalStore (some var_ptr))] }
  | e, p => Except.error (CErr.generic (exprDisplay e ++ " is not simple expression"))

/-- The `for e in expr.value.into_iter() { self.simple_expr(e)? }` loop of
`IrParser::var_expr`. -/
def simple_exprsC : List Expr → IrParser → Except CErr IrParser
  | [], p => Except.ok p
  | e :: rest, p =>
    match simple_expr e p with
    | Except.error err => Except.error err
    | Except.ok p => simple_exprsC rest p

/-- `IrParser::var_expr`. -/
def var_expr (name : String) (value : List Expr) (p : IrParser) :
    Except CErr IrParser :=
  let var_ptr := p.var_count
  if (mapGet p.local_def name).isSome then
    Except.error (CErr.generic ("Variable " ++ name ++ " is already a peek name"))
  else
    let p := { p with var_count := p.var_count + 1 }
    let p := { p with var_def := (mapInsert p.var_def name var_ptr).1 }
    match simple_exprsC value p with
    | Except.error err => Except.error err
    | Except.ok p =>
      Except.ok { p with instrs := p.instrs ++ [(Instr.mk Opcode.globalStore (some var_ptr))] }

mutual

/-- `IrParser::expr`: dispatch on the node kind. -/
def exprC : Expr → IrParser → Except CErr IrParser
  | Expr.ifE c t e, p => if_expr c t e p
  | Expr.whlie c b, p => while_expr c b p
  | Expr.var n v, p => var_expr n v p
  | Expr.peek ns b, p => peek_expr ns b p
  | e, p => simple_expr e p
termination_by e _ => sizeOf e
decreasing_by
  all_goals simp_wf
  all_goals
    first
      | omega
      | (have h1 : 0 < sizeOf ns := by cases ns <;> simp_arith
         omega)

/-- The `while let Some(expr) = self.program.next() { self.expr(expr)? }`
loop of `IrParser::parse`, and the `for e in ... { self.expr(e)? }` loops of
the block compilers. -/
def exprsC : List Expr → IrParser → Except CErr IrParser
  | [], p => Except.ok p
  | e :: rest, p =>
    match exprC e p with
    | Except.error err => Except.error err
    | Except.ok p => exprsC rest p
termination_by l _ => sizeOf l
decreasing_by
  all_goals simp_wf
  all_goals omega

/-- `IrParser::peek_expr`: emit `Bind(n)`, register the names (reversed) via
`peekBindLoop`, compile the body, emit `Unbind(n)`, remove the block's names
from the window and re-insert the saved shadowed bindings. -/
def peek_expr (names : List String) (body : List Expr) (p : IrParser) :
    Except CErr IrParser :=
  let names_len := names.length
  let p := { p with instrs := p.instrs ++ [(Instr.mk Opcode.bind (some names_len))] }
  match peekBindLoop p.var_def names.reverse p.local_def [] with
  | Except.error err => Except.error err
  | Except.ok (ld, shadow_names) =>
    let p := { p with local_def := ld }
    match exprsC body p with
    | Except.error err => Except.error err
    | Except.ok p =>
      let p := { p with instrs := p.instrs ++ [(Instr.mk Opcode.unbind (some names_len))] }
      let p := { p with local_def := names.foldl mapRemove p.local_def }
      let p :=
        if shadow_names.length ≠ 0 then
          { p with local_def :=
              shadow_names.foldl (fun m nv => (mapInsert m nv.1 nv.2).1) p.local_def }
        else p
      Except.ok p
termination_by sizeOf body + 1
decreasing_by
  all_goals simp_wf
  all_goals omega

/-- `IrParser::while_expr`.  The final in-place rewrite of the `JmpIf`
placeholder (`get_unchecked_mut` in the source, in bounds because the
instruction list only grows) is modelled with `List.set`. -/
def while_expr (cond while_block : List Expr) (p : IrParser) :
    Except CErr IrParser :=
  let whileaddrs := p.instrs.length
  match exprsC cond p with
  | Except.error err => Except.error err
  | Except.ok p =>
    let ifaddrs := p.instrs.length
    let p := { p with instrs := p.instrs ++ [(Instr.mk Opcode.jmpIf (none))] }
    match exprsC while_block p with
    | Except.error err => Except.error err
    | Except.ok p =>
      let p := { p with instrs := p.instrs ++ [(Instr.mk Opcode.jmp (some whileaddrs))] }
      let curr_len := p.instrs.length
      Except.ok { p with instrs := p.instrs.set ifaddrs (Instr.mk Opcode.jmpIf (some curr_len)) }
termination_by sizeOf cond + sizeOf while_block
decreasing_by
  all_goals simp_wf
  all_goals
    first
      | (have h1 : 0 < sizeOf while_block := by cases while_block <;> simp_arith
         have h2 : 0 < sizeOf cond := by cases cond <;> simp_arith
         omega)

/-- `IrParser::if_expr`.  In-place placeholder rewrites modelled with
`List.set` as in `while_expr`; the body of the source's
`if let Some(vec) = expr.else_branch` block is split into `if_else_expr`. -/
def if_expr (cond if_branch : List Expr) (else_branch : Option (List Expr))
    (p : IrParser) : Except CErr IrParser :=
  match exprsC cond p with
  | Except.error err => Except.error err
  | Except.ok p =>
    let offset := p.instrs.length
    let p := { p with instrs := p.instrs ++ [(Instr.mk Opcode.jmpIf (none))] }
    match exprsC if_branch p with
    | Except.error err => Except.error err
    | Except.ok p => if_tail_expr else_branch offset p
termination_by sizeOf cond + sizeOf if_branch + sizeOf else_branch
decreasing_by
  all_goals simp_wf
  all_goals
    first
      | omega
      | (have h1 : 0 < sizeOf if_branch := by cases if_branch <;> simp_arith
         have h2 : 0 < sizeOf cond := by cases cond <;> simp_arith
         omega)

/-- The tail of `IrParser::if_expr` after both the condition and the true
branch are compiled: the `if let Some(vec) = expr.else_branch` dispatch;
without an else branch the conditional jump at `offset` is patched to the
instruction index immediately after the true branch. -/
def if_tail_expr (else_branch : Option (List Expr)) (offset : Nat)
    (p : IrParser) : Except CErr IrParser :=
  match else_branch with
  | some vec => if_else_expr vec offset p
  | none =>
    let curr_len := p.instrs.length
    Except.ok { p with instrs := p.instrs.set offset (Instr.mk Opcode.jmpIf (some curr_len)) }
termination_by sizeOf else_branch + 1
decreasing_by
  all_goals simp_wf
  all_goals omega

/-- The `if let Some(vec) = expr.else_branch` block of `IrParser::if_expr`:
emit the placeholder unconditional `Jmp`, patch the conditional jump at
`offset` to the start of the else branch, compile the else branch, then patch
the unconditional jump to the merge point. -/
def if_else_expr (vec : List Expr) (offset : Nat) (p : IrParser) :
    Except CErr IrParser :=
  let offset2 := p.instrs.length
  let p := { p with instrs := p.instrs ++ [(Instr.mk Opcode.jmp (none))] }
  let p := { p with instrs := p.instrs.set offset (Instr.mk Opcode.jmpIf (some (offset2 + 1))) }
  match exprsC vec p with
  | Except.error err => Except.error err
  | Except.ok p =>
    let curr_len := p.instrs.length
    Except.ok { p with instrs := p.instrs.set offset2 (Instr.mk Opcode.jmp (some curr_len)) }
termination_by sizeOf vec + 1
decreasing_by
  all_goals simp_wf
  all_goals omega

end

/-- `IrParser::parse`: run the compile loop from the fresh parser state and
package the bytecode. -/
def parse (prog : List Expr) : Except CErr Bytecode :=
  match exprsC prog IrParser.new with
  | Except.error err => Except.error err
  | Except.ok p => Except.ok { program := p.instrs, consts := p.consts }

mutual

/-- Specification-side well-formedness used to state the amended C4: no peek
block at this node or nested anywhere below it repeats a name in its binding
list. -/
def goodPeeks : Expr → Bool
  | Expr.ifE c t e =>
    goodPeeksList c && goodPeeksList t &&
      (match e with
       | some l => goodPeeksList l
       | none => true)
  | Expr.whlie c b => goodPeeksList c && goodPeeksList b
  | Expr.var _ v => goodPeeksList v
  | Expr.peek ns b => decide ns.Nodup && goodPeeksList b
  | _ => true

/-- `goodPeeks` over an expression sequence. -/
def goodPeeksList : List Expr → Bool
  | [] => true
  | e :: rest => goodPeeks e && goodPeeksList rest

end

/-- A jump instruction's operand is present and bounded by `n` (used to state
C1 over the final instruction sequence); non-jump instructions are
unconstrained. -/
def jumpTargetsLe (ins : Instr) (n : Nat) : Prop :=
  (ins.opcode = Opcode.jmp ∨ ins.opcode = Opcode.jmpIf) →
    ∃ t, ins.operands = some t ∧ t ≤ n

/-- Effect of one compile step on the instruction list, as needed for C1:
the list only grows, already-present instructions are untouched, and every
new or rewritten jump instruction carries a target bounded by the new
length. -/
def listEvolve (l l2 : List Instr) : Prop :=
  l.length ≤ l2.length ∧
  (∀ i, i < l.length → l2.get? i = l.get? i) ∧
  (∀ i ins, l.length ≤ i → l2.get? i = some ins → jumpTargetsLe ins l2.length)

/-- Effect of the tail of `if_expr` (with the conditional-jump placeholder
sitting at `offset`, below the current length) on the instruction list: as
`listEvolve`, except that the placeholder at `offset` is rewritten to a
conditional jump with a bounded target. -/
def patchEvolve (offset : Nat) (l l2 : List Instr) : Prop :=
  l.length ≤ l2.length ∧
  (∀ i, i < l.length → i ≠ offset → l2.get? i = l.get? i) ∧
  (∃ t, l2.get? offset = some (Instr.mk Opcode.jmpIf (some t)) ∧ t ≤ l2.length) ∧
  (∀ i ins, l.length ≤ i → l2.get? i = some ins → jumpTargetsLe ins l2.length)

end IR

namespace VM

/-- The stack-pointer/stack-length agreement invariant of the VM. -/
def stackInv (vm : CHSVM) : Prop := vm.sp = vm.stack.length

theorem push_stack_lt (vm : CHSVM) (v : Int) (h : vm.sp < STACK_CAPACITY) :
    push_stack vm v =
      ({ vm with sp := vm.sp + 1, stack := vm.stack ++ [v] }, Except.ok ()) := by
  simp [push_stack]
  omega

theorem push_stack_full (vm : CHSVM) (v : Int) (h : STACK_CAPACITY ≤ vm.sp) :
    push_stack vm v = (vm, Except.error Trap.stackOverflow) := by
  simp [push_stack]
  omega

theorem pop_stack_concat (vm : CHSVM) (ys : List Int) (y : Int)
    (hst : vm.stack = ys ++ [y]) (hsp : vm.sp = vm.stack.length) :
    pop_stack vm = ({ vm with stack := ys, sp := ys.length }, Except.ok y) := by
  have hsp0 : ¬ vm.sp = 0 := by
    simp [hsp, hst]
  simp [pop_stack, hsp0, hst]
  rw [hsp, hst]
  simp

theorem pop_stack_nil (vm : CHSVM) (hst : vm.stack = []) :
    (pop_stack vm).2 = Except.error Trap.stackUnderflow := by
  by_cases h0 : vm.sp = 0 <;> simp [pop_stack, hst, h0]

theorem pop_stack_inv (vm : CHSVM) (h : stackInv vm) : stackInv (pop_stack vm).1 := by
  rcases List.eq_nil_or_concat vm.stack with h0 | ⟨ys, y, h0⟩
  · have h0sp : vm.sp = 0 := by simp [stackInv, h0] at h; exact h
    simp [pop_stack, h0, h0sp, stackInv]
  · rw [List.concat_eq_append] at h0
    rw [pop_stack_concat vm ys y h0 h]
    simp [stackInv]

theorem push_stack_inv (vm : CHSVM) (v : Int) (h : stackInv vm) :
    stackInv (push_stack vm v).1 := by
  by_cases hc : vm.sp < STACK_CAPACITY
  · rw [push_stack_lt vm v hc]
    simp only [stackInv] at h ⊢
    simp
    omega
  · rw [push_stack_full vm v (by omega)]
    exact h

theorem toStep_push_inv (vm : CHSVM) (v : Int) (h : stackInv vm) :
    stackInv ((toStep (push_stack vm v)).1) := by
  have := push_stack_inv vm v h
  rcases hp : push_stack vm v with ⟨vm1, r⟩
  rw [hp] at this
  cases r <;> simp [toStep, this]

theorem bindPop_pop_inv (vm : CHSVM) (k : CHSVM → Int → CHSVM × StepResult)
    (h : stackInv vm) (hk : ∀ vm1 v, stackInv vm1 → stackInv ((k vm1 v).1)) :
    stackInv ((bindPop (pop_stack vm) k).1) := by
  have := pop_stack_inv vm h
  rcases hp : pop_stack vm with ⟨vm1, r⟩
  rw [hp] at this
  cases r <;> simp [bindPop, this]
  exact hk vm1 _ this

theorem step_inv (vm : CHSVM) (h : stackInv vm) :
    stackInv ((execute_next_instr vm).1) := by
  unfold execute_next_instr
  dsimp only
  split
  · exact h
  · split
    · exact h
    · rename_i instr hfetch
      (repeat' split) <;>
        first
        | exact h
        | exact toStep_push_inv _ _ h
        | (apply bindPop_pop_inv
           · exact h
           · intro vmA vA hA
             (repeat' split) <;>
             first
             | exact hA
             | exact toStep_push_inv _ _ hA
             | (apply bindPop_pop_inv
                · exact hA
                · intro vmB vB hB
                  (repeat' split) <;>
                  first
                  | exact hB
                  | exact toStep_push_inv _ _ hB
                  | (rename_i vmC u hC
                     have hpc := push_stack_inv vmB vA hB
                     rw [hC] at hpc
                     first
                     | exact toStep_push_inv _ _ hpc
                     | exact hpc)))

end VM

/-- C5: for every VM state with the halted flag unset whose instruction
pointer has advanced past the end of the program, `execute_next_instr`
returns the trap `ProgramEndWithoutHalt` (the spec's
`ProgramEndedWithoutHalt`); falling off the end never terminates cleanly. -/
theorem C5_fall_off_end_traps (vm : VM.CHSVM) (hh : vm.is_halted = false)
    (h : vm.program.length ≤ vm.ip) :
    VM.execute_next_instr vm =
      ({ vm with ip := vm.ip + 1 },
       VM.StepResult.trap VM.Trap.programEndWithoutHalt) := by
  have hgt : vm.ip + 1 > vm.program.length := by omega
  simp [VM.execute_next_instr, hgt]

/-- Witness for C5 at the empty program. -/
theorem C5_fall_off_end_traps_witness :
    VM.execute_next_instr (VM.CHSVM.new []) =
      ({ VM.CHSVM.new [] with ip := 1 },
       VM.StepResult.trap VM.Trap.programEndWithoutHalt) :=
  C5_fall_off_end_traps (VM.CHSVM.new []) rfl (by decide)

/-- C8: the operand stack has fixed capacity `STACK_CAPACITY`: a push at
logical depth strictly below capacity succeeds (appending the value and
incrementing `sp`), a push at exactly full capacity returns `StackOverflow`
with the state unchanged, and a pop on an empty stack returns
`StackUnderflow`. -/
theorem C8_stack_capacity :
    (∀ (vm : VM.CHSVM) (v : Int), vm.sp < VM.STACK_CAPACITY →
      VM.push_stack vm v =
        ({ vm with sp := vm.sp + 1, stack := vm.stack ++ [v] }, Except.ok ())) ∧
    (∀ (vm : VM.CHSVM) (v : Int), vm.sp = VM.STACK_CAPACITY →
      VM.push_stack vm v = (vm, Except.error VM.Trap.stackOverflow)) ∧
    (∀ (vm : VM.CHSVM), vm.stack = [] →
      (VM.pop_stack vm).2 = Except.error VM.Trap.stackUnderflow) := by
  refine ⟨fun vm v h => VM.push_stack_lt vm v h,
          fun vm v h => VM.push_stack_full vm v (by omega),
          fun vm h => VM.pop_stack_nil vm h⟩

/-- Witness for C8 at concrete states. -/
theorem C8_stack_capacity_witness :
    (VM.push_stack (VM.CHSVM.new []) 7 =
      ({ VM.CHSVM.new [] with sp := 1, stack := [7] }, Except.ok ())) ∧
    (VM.push_stack (VM.CHSVM.mk (List.replicate 1024 0) false 0 1024 []) 7 =
      (VM.CHSVM.mk (List.replicate 1024 0) false 0 1024 [],
       Except.error VM.Trap.stackOverflow)) ∧
    ((VM.pop_stack (VM.CHSVM.new [])).2 = Except.error VM.Trap.stackUnderflow) :=
  ⟨C8_stack_capacity.1 (VM.CHSVM.new []) 7 (by decide),
   C8_stack_capacity.2.1 (VM.CHSVM.mk (List.replicate 1024 0) false 0 1024 []) 7 rfl,
   C8_stack_capacity.2.2 (VM.CHSVM.new []) rfl⟩

/-- C10: the redundant stack-pointer counter `sp` equals the length of the
stack vector at construction (`CHSVM::new`) and is preserved by every call to
`execute_next_instr`, whatever the outcome of the call. -/
theorem C10_sp_tracks_stack :
    (∀ (p : List VM.Instr), VM.stackInv (VM.CHSVM.new p)) ∧
    (∀ (vm : VM.CHSVM), VM.stackInv vm →
      VM.stackInv ((VM.execute_next_instr vm).1)) :=
  ⟨fun _ => rfl, fun vm h => VM.step_inv vm h⟩

/-- Witness for C10 at a concrete state. -/
theorem C10_sp_tracks_stack_witness :
    VM.stackInv (VM.CHSVM.new []) ∧
    VM.stackInv ((VM.execute_next_instr
      (VM.CHSVM.mk [3, 4] false 0 2 [VM.Instr.mk VM.InstrKind.add none])).1) :=
  ⟨C10_sp_tracks_stack.1 [],
   C10_sp_tracks_stack.2 (VM.CHSVM.mk [3, 4] false 0 2 [VM.Instr.mk VM.InstrKind.add none]) rfl⟩

namespace VM

theorem usizeOfI64_of_nonneg (a : Int) (h0 : 0 ≤ a) (h1 : a < 2 ^ 64) :
    usizeOfI64 a = a.toNat := by
  unfold usizeOfI64
  rw [Int.emod_eq_of_lt h0 h1]

theorem bindPop2_toStep (vm : CHSVM) (s : List Int) (a b : Int) (g : Int → Int → Int)
    (hst : vm.stack = s ++ [a, b]) (hsp : vm.sp = vm.stack.length)
    (hcap : vm.stack.length ≤ STACK_CAPACITY) :
    (bindPop (pop_stack vm) fun vm1 x =>
      bindPop (pop_stack vm1) fun vm2 y => toStep (push_stack vm2 (g x y)))
    = ({ vm with stack := s ++ [g b a], sp := s.length + 1 }, StepResult.ok) := by
  have h1 : vm.stack = (s ++ [a]) ++ [b] := by simp [hst]
  rw [pop_stack_concat vm (s ++ [a]) b h1 hsp]
  dsimp only [bindPop]
  rw [pop_stack_concat _ s a rfl (by simp)]
  dsimp only [bindPop]
  have hlen : s.length < STACK_CAPACITY := by
    rw [hst] at hcap
    simp at hcap
    omega
  rw [push_stack_lt _ _ hlen]
  dsimp only [toStep]

theorem gt_step (vm : CHSVM) (s : List Int) (op1 op2 : Int) (o : Option Int)
    (hst : vm.stack = s ++ [op1, op2]) (hsp : vm.sp = vm.stack.length)
    (hcap : vm.stack.length ≤ STACK_CAPACITY)
    (hfetch : vm.program.get? vm.ip = some (Instr.mk InstrKind.gt o)) :
    execute_next_instr vm =
      ({ vm with
          ip := vm.ip + 1
          stack := s ++ [(if op1 < op2 then (1 : Int) else 0)]
          sp := s.length + 1 }, StepResult.ok) := by
  have hlt : vm.ip < vm.program.length := by
    rcases List.get?_eq_some.1 hfetch with ⟨h, _⟩
    exact h
  unfold execute_next_instr
  dsimp only
  rw [if_neg (by omega)]
  simp only [Nat.add_sub_cancel]
  rw [hfetch]
  dsimp only
  rw [if_pos (by simp [hst])]
  exact bindPop2_toStep _ s op1 op2 (fun x y => if y < x then 1 else 0) hst hsp hcap

end VM

namespace VM

theorem gte_step (vm : CHSVM) (s : List Int) (op1 op2 : Int) (o : Option Int)
    (hst : vm.stack = s ++ [op1, op2]) (hsp : vm.sp = vm.stack.length)
    (hcap : vm.stack.length ≤ STACK_CAPACITY)
    (hfetch : vm.program.get? vm.ip = some (Instr.mk InstrKind.gte o)) :
    execute_next_instr vm =
      ({ vm with
          ip := vm.ip + 1
          stack := s ++ [(if op1 ≤ op2 then (1 : Int) else 0)]
          sp := s.length + 1 }, StepResult.ok) := by
  have hlt : vm.ip < vm.program.length := by
    rcases List.get?_eq_some.1 hfetch with ⟨h, _⟩
    exact h
  unfold execute_next_instr
  dsimp only
  rw [if_neg (by omega)]
  simp only [Nat.add_sub_cancel]
  rw [hfetch]
  dsimp only
  rw [if_pos (by simp [hst])]
  exact bindPop2_toStep _ s op1 op2 (fun x y => if y ≤ x then 1 else 0) hst hsp hcap

theorem lt_step (vm : CHSVM) (s : List Int) (op1 op2 : Int) (o : Option Int)
    (hst : vm.stack = s ++ [op1, op2]) (hsp : vm.sp = vm.stack.length)
    (hcap : vm.stack.length ≤ STACK_CAPACITY)
    (hfetch : vm.program.get? vm.ip = some (Instr.mk InstrKind.lt o)) :
    execute_next_instr vm =
      ({ vm with
          ip := vm.ip + 1
          stack := s ++ [(if op1 > op2 then (1 : Int) else 0)]
          sp := s.length + 1 }, StepResult.ok) := by
  have hlt : vm.ip < vm.program.length := by
    rcases List.get?_eq_some.1 hfetch with ⟨h, _⟩
    exact h
  unfold execute_next_instr
  dsimp only
  rw [if_neg (by omega)]
  simp only [Nat.add_sub_cancel]
  rw [hfetch]
  dsimp only
  rw [if_pos (by simp [hst])]
  exact bindPop2_toStep _ s op1 op2 (fun x y => if y > x then 1 else 0) hst hsp hcap

theorem lte_step (vm : CHSVM) (s : List Int) (op1 op2 : Int) (o : Option Int)
    (hst : vm.stack = s ++ [op1, op2]) (hsp : vm.sp = vm.stack.length)
    (hcap : vm.stack.length ≤ STACK_CAPACITY)
    (hfetch : vm.program.get? vm.ip = some (Instr.mk InstrKind.lte o)) :
    execute_next_instr vm =
      ({ vm with
          ip := vm.ip + 1
          stack := s ++ [(if op1 ≥ op2 then (1 : Int) else 0)]
          sp := s.length + 1 }, StepResult.ok) := by
  have hlt : vm.ip < vm.program.length := by
    rcases List.get?_eq_some.1 hfetch with ⟨h, _⟩
    exact h
  unfold execute_next_instr
  dsimp only
  rw [if_neg (by omega)]
  simp only [Nat.add_sub_cancel]
  rw [hfetch]
  dsimp only
  rw [if_pos (by simp [hst])]
  exact bindPop2_toStep _ s op1 op2 (fun x y => if y ≥ x then 1 else 0) hst hsp hcap

theorem jmp_step (vm : CHSVM) (t : Int)
    (hfetch : vm.program.get? vm.ip = some (Instr.mk InstrKind.jmp (some t))) :
    execute_next_instr vm =
      (if t < 0 ∨ usizeOfI64 t > vm.program.length then
        ({ vm with ip := vm.ip + 1 }, StepResult.trap Trap.addersOutOfBounds)
      else ({ vm with ip := usizeOfI64 t }, StepResult.ok)) := by
  have hlt : vm.ip < vm.program.length := by
    rcases List.get?_eq_some.1 hfetch with ⟨h, _⟩
    exact h
  unfold execute_next_instr
  dsimp only
  rw [if_neg (by omega)]
  simp only [Nat.add_sub_cancel]
  rw [hfetch]

theorem jmpIf_step (vm : CHSVM) (s : List Int) (v : Int) (t : Int)
    (hst : vm.stack = s ++ [v]) (hsp : vm.sp = vm.stack.length)
    (hfetch : vm.program.get? vm.ip = some (Instr.mk InstrKind.jmpIf (some t))) :
    execute_next_instr vm =
      (if t < 0 ∨ usizeOfI64 t > vm.program.length then
        ({ vm with
            ip := vm.ip + 1
            stack := s
            sp := s.length }, StepResult.trap Trap.addersOutOfBounds)
      else if v = 1 then
        ({ vm with
            ip := usizeOfI64 t
            stack := s
            sp := s.length }, StepResult.ok)
      else
        ({ vm with
            ip := vm.ip + 1
            stack := s
            sp := s.length }, StepResult.ok)) := by
  have hlt : vm.ip < vm.program.length := by
    rcases List.get?_eq_some.1 hfetch with ⟨h, _⟩
    exact h
  unfold execute_next_instr
  dsimp only
  rw [if_neg (by omega)]
  simp only [Nat.add_sub_cancel]
  rw [hfetch]
  dsimp only
  rw [pop_stack_concat { vm with ip := vm.ip + 1 } s v hst hsp]
  dsimp only [bindPop]

end VM

namespace VM

/-- C9 (amended): `Dup` with operand `a` (a well-formed `i64` value,
`0 ≤ a < 2^64`) treats `a` as a relative offset from the stack top: if `a`
exceeds the program length the step traps `StackOverflow` (malformed-operand
check, performed before the depth check); otherwise if `a` is at or beyond
the current stack depth it traps `StackUnderflow`; otherwise, when the stack
is below capacity, a copy of the value at depth position top minus `a` is
pushed and nothing is removed — but a `Dup` on a stack at full capacity traps
`StackOverflow` from the final push instead of pushing. -/
theorem C9_dup_relative_offset (vm : CHSVM) (a : Int)
    (ha : 0 ≤ a) (hw : a < 2 ^ 64) (hsp : vm.sp = vm.stack.length)
    (hfetch : vm.program.get? vm.ip = some (Instr.mk InstrKind.dup (some a))) :
    execute_next_instr vm =
      (if a.toNat > vm.program.length then
        ({ vm with ip := vm.ip + 1 }, StepResult.trap Trap.stackOverflow)
      else if vm.stack.length ≤ a.toNat then
        ({ vm with ip := vm.ip + 1 }, StepResult.trap Trap.stackUnderflow)
      else if vm.sp < STACK_CAPACITY then
        ({ vm with
            ip := vm.ip + 1
            stack := vm.stack ++ [vm.stack.getD (vm.stack.length - 1 - a.toNat) 0]
            sp := vm.sp + 1 }, StepResult.ok)
      else ({ vm with ip := vm.ip + 1 }, StepResult.trap Trap.stackOverflow)) := by
  have hlt : vm.ip < vm.program.length := by
    rcases List.get?_eq_some.1 hfetch with ⟨h, _⟩
    exact h
  unfold execute_next_instr
  dsimp only
  rw [if_neg (by omega)]
  simp only [Nat.add_sub_cancel]
  rw [hfetch]
  dsimp only
  rw [usizeOfI64_of_nonneg a ha hw]
  by_cases h1 : a.toNat > vm.program.length
  · rw [if_pos h1, if_pos h1]
  · rw [if_neg h1, if_neg h1]
    by_cases h2 : vm.stack.length ≤ a.toNat
    · rw [if_pos (by omega : (vm.sp : Int) - a ≤ 0), if_pos h2]
    · have ha2 : (a.toNat : Int) = a := Int.toNat_of_nonneg ha
      rw [if_neg (by omega : ¬ ((vm.sp : Int) - a ≤ 0)), if_neg h2]
      have hidx : vm.sp - 1 - a.toNat < vm.stack.length := by omega
      have hg : vm.stack.get? (vm.sp - 1 - a.toNat) =
          some (vm.stack.getD (vm.sp - 1 - a.toNat) 0) := by
        rw [List.getD_eq_get?]
        rcases List.get?_eq_some.1 (List.get?_eq_get hidx) with ⟨h, _⟩
        rw [List.get?_eq_get hidx]
        rfl
      rw [hg]
      dsimp only
      by_cases h3 : vm.sp < STACK_CAPACITY
      · rw [if_pos h3, push_stack_lt { vm with ip := vm.ip + 1 } _ h3]
        dsimp only [toStep]
        rw [hsp]
      · rw [if_neg h3,
            push_stack_full { vm with ip := vm.ip + 1 } _
              (by show STACK_CAPACITY ≤ vm.sp; omega)]
        rfl

end VM

/-- Witness for C9 at `Dup 1` over the stack `[7, 8]`: a copy of `7` is
pushed. -/
theorem C9_dup_relative_offset_witness :
    VM.execute_next_instr
        (VM.CHSVM.mk [7, 8] false 0 2 [VM.Instr.mk VM.InstrKind.dup (some 1)]) =
      (VM.CHSVM.mk [7, 8, 7] false 1 3 [VM.Instr.mk VM.InstrKind.dup (some 1)],
       VM.StepResult.ok) :=
  VM.C9_dup_relative_offset
    (VM.CHSVM.mk [7, 8] false 0 2 [VM.Instr.mk VM.InstrKind.dup (some 1)]) 1
    (by decide) (by decide) rfl rfl

set_option maxRecDepth 8192 in
/-- C9 counterexample to the claim as stated: `Dup 0` on a stack at full
capacity (1024 values) passes both operand checks but the final push traps
`StackOverflow`; no copy is pushed, while the claim asserts the copy is
pushed whenever the two operand checks pass. -/
theorem C9_counterexample :
    ((VM.execute_next_instr
        (VM.CHSVM.mk (List.replicate 1024 0) false 0 1024
          [VM.Instr.mk VM.InstrKind.dup (some 0)])).2
      = VM.StepResult.trap VM.Trap.stackOverflow)
    ∧ ((VM.execute_next_instr
        (VM.CHSVM.mk (List.replicate 1024 0) false 0 1024
          [VM.Instr.mk VM.InstrKind.dup (some 0)])).1.stack.length = 1024) :=
  ⟨rfl, rfl⟩

/-- C7: the claim (and the spec's trap table) says every operand-requiring
opcode returns `OperandNotProvided` when the operand is absent; the code does
so only for `Push` and `Dup`, while the `Jmp` and `JmpIf` arms hit `todo!()`
(a panic, modelled as `vmPanic`), and `JmpIf` moreover pops a value before
looking at the operand, so the stack is not left unchanged. -/
theorem C7_missing_operand_panics :
    ((VM.execute_next_instr (VM.CHSVM.new [VM.Instr.mk VM.InstrKind.jmp none])).2
      = VM.StepResult.vmPanic)
    ∧ ((VM.execute_next_instr
        (VM.CHSVM.mk [7] false 0 1 [VM.Instr.mk VM.InstrKind.jmpIf none])).2
      = VM.StepResult.vmPanic)
    ∧ ((VM.execute_next_instr
        (VM.CHSVM.mk [7] false 0 1 [VM.Instr.mk VM.InstrKind.jmpIf none])).1.stack
      = [])
    ∧ ((VM.execute_next_instr (VM.CHSVM.new [VM.Instr.mk VM.InstrKind.push none])).2
      = VM.StepResult.trap VM.Trap.operandNotProvided)
    ∧ ((VM.execute_next_instr (VM.CHSVM.new [VM.Instr.mk VM.InstrKind.dup none])).2
      = VM.StepResult.trap VM.Trap.operandNotProvided) := by
  decide

/-- C2 counterexample to the claim as stated: with stack `[5, 3]` the value
pushed earlier is `op1 = 5` and the later one `op2 = 3`, so the claim says
`Gt` pushes 1 (as `op1 > op2`); the code pushes `op1 < op2`, i.e. 0. -/
theorem C2_counterexample :
    ((VM.execute_next_instr
        (VM.CHSVM.mk [5, 3] false 0 2 [VM.Instr.mk VM.InstrKind.gt none])).1.stack
      = [0])
    ∧ ((5 : Int) > 3) := by
  decide

/-- C2 (amended): `Gt`, `Gte`, `Lt`, `Lte` pop `op2` (pushed later) then
`op1` (pushed earlier) and push a 0/1 result, but with the comparison
inverted relative to the opcode name: `Gt` pushes 1 iff `op1 < op2`, `Gte`
iff `op1 ≤ op2`, `Lt` iff `op1 > op2`, `Lte` iff `op1 ≥ op2`. -/
theorem C2_comparison_semantics :
    (∀ (vm : VM.CHSVM) (s : List Int) (op1 op2 : Int) (o : Option Int),
      vm.stack = s ++ [op1, op2] → vm.sp = vm.stack.length →
      vm.stack.length ≤ VM.STACK_CAPACITY →
      vm.program.get? vm.ip = some (VM.Instr.mk VM.InstrKind.gt o) →
      VM.execute_next_instr vm =
        ({ vm with
            ip := vm.ip + 1
            stack := s ++ [(if op1 < op2 then (1 : Int) else 0)]
            sp := s.length + 1 }, VM.StepResult.ok)) ∧
    (∀ (vm : VM.CHSVM) (s : List Int) (op1 op2 : Int) (o : Option Int),
      vm.stack = s ++ [op1, op2] → vm.sp = vm.stack.length →
      vm.stack.length ≤ VM.STACK_CAPACITY →
      vm.program.get? vm.ip = some (VM.Instr.mk VM.InstrKind.gte o) →
      VM.execute_next_instr vm =
        ({ vm with
            ip := vm.ip + 1
            stack := s ++ [(if op1 ≤ op2 then (1 : Int) else 0)]
            sp := s.length + 1 }, VM.StepResult.ok)) ∧
    (∀ (vm : VM.CHSVM) (s : List Int) (op1 op2 : Int) (o : Option Int),
      vm.stack = s ++ [op1, op2] → vm.sp = vm.stack.length →
      vm.stack.length ≤ VM.STACK_CAPACITY →
      vm.program.get? vm.ip = some (VM.Instr.mk VM.InstrKind.lt o) →
      VM.execute_next_instr vm =
        ({ vm with
            ip := vm.ip + 1
            stack := s ++ [(if op1 > op2 then (1 : Int) else 0)]
            sp := s.length + 1 }, VM.StepResult.ok)) ∧
    (∀ (vm : VM.CHSVM) (s : List Int) (op1 op2 : Int) (o : Option Int),
      vm.stack = s ++ [op1, op2] → vm.sp = vm.stack.length →
      vm.stack.length ≤ VM.STACK_CAPACITY →
      vm.program.get? vm.ip = some (VM.Instr.mk VM.InstrKind.lte o) →
      VM.execute_next_instr vm =
        ({ vm with
            ip := vm.ip + 1
            stack := s ++ [(if op1 ≥ op2 then (1 : Int) else 0)]
            sp := s.length + 1 }, VM.StepResult.ok)) :=
  ⟨fun vm s a b o h1 h2 h3 h4 => VM.gt_step vm s a b o h1 h2 h3 h4,
   fun vm s a b o h1 h2 h3 h4 => VM.gte_step vm s a b o h1 h2 h3 h4,
   fun vm s a b o h1 h2 h3 h4 => VM.lt_step vm s a b o h1 h2 h3 h4,
   fun vm s a b o h1 h2 h3 h4 => VM.lte_step vm s a b o h1 h2 h3 h4⟩

/-- Witness for C2 on the stack `[5, 3]` for all four comparison opcodes. -/
theorem C2_comparison_semantics_witness :
    (VM.execute_next_instr
        (VM.CHSVM.mk [5, 3] false 0 2 [VM.Instr.mk VM.InstrKind.gt none]) =
      (VM.CHSVM.mk [0] false 1 1 [VM.Instr.mk VM.InstrKind.gt none],
       VM.StepResult.ok)) ∧
    (VM.execute_next_instr
        (VM.CHSVM.mk [5, 3] false 0 2 [VM.Instr.mk VM.InstrKind.gte none]) =
      (VM.CHSVM.mk [0] false 1 1 [VM.Instr.mk VM.InstrKind.gte none],
       VM.StepResult.ok)) ∧
    (VM.execute_next_instr
        (VM.CHSVM.mk [5, 3] false 0 2 [VM.Instr.mk VM.InstrKind.lt none]) =
      (VM.CHSVM.mk [1] false 1 1 [VM.Instr.mk VM.InstrKind.lt none],
       VM.StepResult.ok)) ∧
    (VM.execute_next_instr
        (VM.CHSVM.mk [5, 3] false 0 2 [VM.Instr.mk VM.InstrKind.lte none]) =
      (VM.CHSVM.mk [1] false 1 1 [VM.Instr.mk VM.InstrKind.lte none],
       VM.StepResult.ok)) :=
  ⟨C2_comparison_semantics.1
      (VM.CHSVM.mk [5, 3] false 0 2 [VM.Instr.mk VM.InstrKind.gt none])
      [] 5 3 none rfl rfl (by decide) rfl,
   C2_comparison_semantics.2.1
      (VM.CHSVM.mk [5, 3] false 0 2 [VM.Instr.mk VM.InstrKind.gte none])
      [] 5 3 none rfl rfl (by decide) rfl,
   C2_comparison_semantics.2.2.1
      (VM.CHSVM.mk [5, 3] false 0 2 [VM.Instr.mk VM.InstrKind.lt none])
      [] 5 3 none rfl rfl (by decide) rfl,
   C2_comparison_semantics.2.2.2
      (VM.CHSVM.mk [5, 3] false 0 2 [VM.Instr.mk VM.InstrKind.lte none])
      [] 5 3 none rfl rfl (by decide) rfl⟩

/-- C6 counterexample to the claim as stated: in a one-instruction program,
the target `1` is not a valid instruction index (the only valid index is 0),
yet `Jmp 1` does not trap: the bounds check accepts any target up to and
including the program length. -/
theorem C6_counterexample :
    (VM.execute_next_instr (VM.CHSVM.new [VM.Instr.mk VM.InstrKind.jmp (some 1)]) =
      (VM.CHSVM.mk [] false 1 0 [VM.Instr.mk VM.InstrKind.jmp (some 1)],
       VM.StepResult.ok))
    ∧ ¬ (1 < (VM.CHSVM.new [VM.Instr.mk VM.InstrKind.jmp (some 1)]).program.length) := by
  decide

/-- C6 (amended): `JmpIf t` (with a `t` in `i64` range) pops exactly one
value; it traps `AddersOutOfBounds` exactly when `t` is negative or strictly
greater than the program length (targets up to and including the length are
accepted, so a target equal to the length — one past the last instruction —
does not trap); otherwise the instruction pointer becomes `t` iff the popped
value is 1, and falls through to the next instruction otherwise.  `Jmp t`
transfers control unconditionally under the same bounds check, without
touching the stack. -/
theorem C6_jump_semantics :
    (∀ (vm : VM.CHSVM) (s : List Int) (v t : Int), t < 2 ^ 64 →
      vm.stack = s ++ [v] → vm.sp = vm.stack.length →
      vm.program.get? vm.ip = some (VM.Instr.mk VM.InstrKind.jmpIf (some t)) →
      VM.execute_next_instr vm =
        (if t < 0 ∨ t.toNat > vm.program.length then
          ({ vm with
              ip := vm.ip + 1
              stack := s
              sp := s.length }, VM.StepResult.trap VM.Trap.addersOutOfBounds)
        else if v = 1 then
          ({ vm with
              ip := t.toNat
              stack := s
              sp := s.length }, VM.StepResult.ok)
        else
          ({ vm with
              ip := vm.ip + 1
              stack := s
              sp := s.length }, VM.StepResult.ok))) ∧
    (∀ (vm : VM.CHSVM) (t : Int), t < 2 ^ 64 →
      vm.program.get? vm.ip = some (VM.Instr.mk VM.InstrKind.jmp (some t)) →
      VM.execute_next_instr vm =
        (if t < 0 ∨ t.toNat > vm.program.length then
          ({ vm with ip := vm.ip + 1 }, VM.StepResult.trap VM.Trap.addersOutOfBounds)
        else ({ vm with ip := t.toNat }, VM.StepResult.ok))) := by
  constructor
  · intro vm s v t hw hst hsp hfetch
    rw [VM.jmpIf_step vm s v t hst hsp hfetch]
    by_cases ht : t < 0
    · simp only [ht, true_or, if_true]
    · rw [VM.usizeOfI64_of_nonneg t (by omega) hw]
  · intro vm t hw hfetch
    rw [VM.jmp_step vm t hfetch]
    by_cases ht : t < 0
    · simp only [ht, true_or, if_true]
    · rw [VM.usizeOfI64_of_nonneg t (by omega) hw]

/-- Witness for C6: `JmpIf 1` with popped value 2 falls through; `Jmp 0`
jumps to instruction 0; `Jmp (-1)` traps `AddersOutOfBounds`. -/
theorem C6_jump_semantics_witness :
    (VM.execute_next_instr
        (VM.CHSVM.mk [2] false 0 1 [VM.Instr.mk VM.InstrKind.jmpIf (some 1)]) =
      (VM.CHSVM.mk [] false 1 0 [VM.Instr.mk VM.InstrKind.jmpIf (some 1)],
       VM.StepResult.ok)) ∧
    (VM.execute_next_instr (VM.CHSVM.new [VM.Instr.mk VM.InstrKind.jmp (some 0)]) =
      (VM.CHSVM.mk [] false 0 0 [VM.Instr.mk VM.InstrKind.jmp (some 0)],
       VM.StepResult.ok)) ∧
    (VM.execute_next_instr
        (VM.CHSVM.new [VM.Instr.mk VM.InstrKind.jmp (some (-1))]) =
      (VM.CHSVM.mk [] false 1 0 [VM.Instr.mk VM.InstrKind.jmp (some (-1))],
       VM.StepResult.trap VM.Trap.addersOutOfBounds)) :=
  ⟨C6_jump_semantics.1
      (VM.CHSVM.mk [2] false 0 1 [VM.Instr.mk VM.InstrKind.jmpIf (some 1)])
      [] 2 1 (by decide) rfl rfl rfl,
   C6_jump_semantics.2
      (VM.CHSVM.new [VM.Instr.mk VM.InstrKind.jmp (some 0)])
      0 (by decide) rfl,
   C6_jump_semantics.2
      (VM.CHSVM.new [VM.Instr.mk VM.InstrKind.jmp (some (-1))])
      (-1) (by decide) rfl⟩

namespace IR

theorem mapGet_remove (m : List (String × Nat)) (k k' : String) :
    mapGet (mapRemove m k) k' = if k = k' then none else mapGet m k' := by
  induction m with
  | nil => simp [mapRemove, mapGet]
  | cons hd tl ih =>
    obtain ⟨a, b⟩ := hd
    simp only [mapRemove, List.filter_cons, decide_not] at ih ⊢
    by_cases hak : a = k <;> by_cases hak' : a = k' <;> by_cases hkk : k = k' <;>
      simp_all [mapGet]

theorem mapGet_insert (m : List (String × Nat)) (k : String) (v : Nat) (k' : String) :
    mapGet (mapInsert m k v).1 k' = if k = k' then some v else mapGet m k' := by
  simp only [mapInsert, mapGet]
  rw [mapGet_remove]
  by_cases h : k = k' <;> simp [h]

theorem mapGet_append (l1 l2 : List (String × Nat)) (k : String) :
    mapGet (l1 ++ l2) k = (mapGet l1 k).or (mapGet l2 k) := by
  induction l1 with
  | nil => simp [mapGet]
  | cons hd tl ih =>
    obtain ⟨a, b⟩ := hd
    by_cases hak : a = k
    · simp [mapGet, hak]
    · simp [mapGet, hak, ih]

theorem foldl_remove_mapGet (names : List String) (m : List (String × Nat)) (k : String) :
    mapGet (names.foldl mapRemove m) k = if k ∈ names then none else mapGet m k := by
  induction names generalizing m with
  | nil => simp
  | cons e rest ih =>
    simp only [List.foldl_cons]
    rw [ih, mapGet_remove]
    simp only [List.mem_cons]
    by_cases h1 : k ∈ rest
    · simp [h1]
    · by_cases h2 : k = e
      · subst h2
        simp [h1]
      · have h3 : ¬ e = k := fun h => h2 h.symm
        simp [h1, h2, h3]

theorem foldl_insert_mapGet (sh : List (String × Nat)) (m : List (String × Nat)) (k : String) :
    mapGet (sh.foldl (fun m nv => (mapInsert m nv.1 nv.2).1) m) k =
      (mapGet sh.reverse k).or (mapGet m k) := by
  induction sh generalizing m with
  | nil => simp [mapGet]
  | cons nv rest ih =>
    simp only [List.foldl_cons, List.reverse_cons]
    rw [ih, mapGet_append]
    simp only [mapGet_insert]
    cases hr : mapGet rest.reverse k
    · simp only [Option.or]
      by_cases h : nv.1 = k
      · simp [mapGet, h]
      · have h2 : ¬ k = nv.1 := fun hh => h hh.symm
        simp [mapGet, h, h2]
    · simp [Option.or]

end IR

namespace IR

theorem peekBindLoop_notmem :
    ∀ (xs : List String) (varDef ld sh ld1 sh1 : List (String × Nat)) (k : String),
      k ∉ xs → peekBindLoop varDef xs ld sh = Except.ok (ld1, sh1) →
      mapGet ld1 k = mapGet ld k := by
  intro xs
  induction xs with
  | nil =>
    intro varDef ld sh ld1 sh1 k _ h
    simp [peekBindLoop] at h
    rw [← h.1]
  | cons e rest ih =>
    intro varDef ld sh ld1 sh1 k hk h
    have hke : ¬ k = e := fun hh => hk (by simp [hh])
    have hkr : k ∉ rest := fun hh => hk (by simp [hh])
    simp only [peekBindLoop, mapInsert] at h
    split at h
    · simp at h
    · have hek : ¬ e = k := fun hh => hke hh.symm
      cases hg : mapGet ld e <;> rw [hg] at h <;> dsimp only at h <;>
        rw [ih _ _ _ _ _ _ hkr h] <;> simp [mapGet, hek, mapGet_remove]

end IR

namespace IR

theorem peekBindLoop_shadow :
    ∀ (xs : List String) (varDef ld sh ld1 sh1 : List (String × Nat)) (k : String),
      xs.Nodup → peekBindLoop varDef xs ld sh = Except.ok (ld1, sh1) →
      mapGet sh1.reverse k =
        (if k ∈ xs then mapGet ld k else none).or (mapGet sh.reverse k) := by
  intro xs
  induction xs with
  | nil =>
    intro varDef ld sh ld1 sh1 k _ h
    simp [peekBindLoop] at h
    rw [← h.2]
    simp
  | cons e rest ih =>
    intro varDef ld sh ld1 sh1 k hnd h
    have hnd1 : rest.Nodup := (List.nodup_cons.1 hnd).2
    have he : e ∉ rest := (List.nodup_cons.1 hnd).1
    simp only [peekBindLoop, mapInsert] at h
    split at h
    · simp at h
    · cases hg : mapGet ld e <;> rw [hg] at h <;> dsimp only at h
      · rw [ih varDef _ sh ld1 sh1 k hnd1 h]
        by_cases hke : k = e
        · subst hke
          simp [he, hg]
        · have hek : ¬ e = k := fun hh => hke hh.symm
          by_cases hkr : k ∈ rest
          · simp [hkr, hke, hek, mapGet, mapGet_remove]
          · simp [hkr, hke]
      · rename_i shadow
        rw [ih varDef _ _ ld1 sh1 k hnd1 h]
        rw [List.reverse_append]
        by_cases hke : k = e
        · subst hke
          simp [he, hg, mapGet, Option.or]
        · have hek : ¬ e = k := fun hh => hke hh.symm
          by_cases hkr : k ∈ rest <;>
            simp [hkr, hke, hek, mapGet, mapGet_remove]

theorem peekBindLoop_global_error :
    ∀ (xs : List String) (varDef ld sh : List (String × Nat)),
      (∃ e ∈ xs, (mapGet varDef e).isSome) →
      ∃ err, peekBindLoop varDef xs ld sh = Except.error err := by
  intro xs
  induction xs with
  | nil =>
    intro _ _ _ h
    simp at h
  | cons e rest ih =>
    intro varDef ld sh h
    simp only [peekBindLoop, mapInsert]
    by_cases hg : (mapGet varDef e).isSome
    · exact ⟨_, by rw [if_pos hg]⟩
    · rcases h with ⟨x, hx, hxs⟩
      rcases List.mem_cons.1 hx with rfl | hxr
      · exact absurd hxs hg
      · rw [if_neg hg]
        cases hgl : mapGet ld e <;> dsimp only <;>
          exact ih _ _ _ ⟨x, hxr, hxs⟩

end IR

namespace IR

theorem simple_expr_local (e : Expr) (p p' : IrParser)
    (h : simple_expr e p = Except.ok p') : p'.local_def = p.local_def := by
  cases e <;> simp only [simple_expr] at h <;> (repeat' split at h) <;>
    first
    | (simp only [Except.ok.injEq] at h
       subst h
       rfl)
    | simp at h

theorem simple_exprsC_local :
    ∀ (l : List Expr) (p p' : IrParser),
      simple_exprsC l p = Except.ok p' → p'.local_def = p.local_def := by
  intro l
  induction l with
  | nil =>
    intro p p' h
    simp [simple_exprsC] at h
    rw [← h]
  | cons e rest ih =>
    intro p p' h
    simp only [simple_exprsC] at h
    split at h
    · simp at h
    · rename_i p1 hstep
      rw [ih _ _ h, simple_expr_local e p p1 hstep]

theorem var_expr_local (n : String) (v : List Expr) (p p' : IrParser)
    (h : var_expr n v p = Except.ok p') : p'.local_def = p.local_def := by
  simp only [var_expr] at h
  split at h
  · simp at h
  · split at h
    · simp at h
    · rename_i p1 hstep
      have h2 := simple_exprsC_local v _ p1 hstep
      simp only [Except.ok.injEq] at h
      rw [← h]
      exact h2

end IR

namespace IR

theorem exprC_local_preserved :
    ∀ (e : Expr) (p : IrParser), goodPeeks e = true →
      ∀ p', exprC e p = Except.ok p' →
      ∀ k, mapGet p'.local_def k = mapGet p.local_def k := by
  refine exprC.induct
    (fun e p => goodPeeks e = true → ∀ p', exprC e p = Except.ok p' →
      ∀ k, mapGet p'.local_def k = mapGet p.local_def k)
    (fun ns b p => (decide ns.Nodup && goodPeeksList b) = true →
      ∀ p', peek_expr ns b p = Except.ok p' →
      ∀ k, mapGet p'.local_def k = mapGet p.local_def k)
    (fun l p => goodPeeksList l = true → ∀ p', exprsC l p = Except.ok p' →
      ∀ k, mapGet p'.local_def k = mapGet p.local_def k)
    (fun c b p => (goodPeeksList c && goodPeeksList b) = true →
      ∀ p', while_expr c b p = Except.ok p' →
      ∀ k, mapGet p'.local_def k = mapGet p.local_def k)
    (fun c t e p => (goodPeeksList c && goodPeeksList t &&
        (match e with
         | some l => goodPeeksList l
         | none => true)) = true →
      ∀ p', if_expr c t e p = Except.ok p' →
      ∀ k, mapGet p'.local_def k = mapGet p.local_def k)
    (fun eb offset p => (match eb with
       | some l => goodPeeksList l
       | none => true) = true →
      ∀ p', if_tail_expr eb offset p = Except.ok p' →
      ∀ k, mapGet p'.local_def k = mapGet p.local_def k)
    (fun vec offset p => goodPeeksList vec = true →
      ∀ p', if_else_expr vec offset p = Except.ok p' →
      ∀ k, mapGet p'.local_def k = mapGet p.local_def k)
    ?_ ?_ ?_ ?_ ?_ ?_ ?_ ?_ ?_ ?_ ?_ ?_ ?_ ?_ ?_ ?_ ?_ ?_ ?_ ?_ ?_
  -- exprC: if
  · intro c t e p hm5 hgood p' hok k
    simp only [exprC] at hok
    unfold goodPeeks at hgood
    exact hm5 hgood p' hok k
  -- exprC: while
  · intro c b p hm4 hgood p' hok k
    simp only [exprC] at hok
    unfold goodPeeks at hgood
    exact hm4 hgood p' hok k
  -- exprC: var
  · intro n v p hgood p' hok k
    simp only [exprC] at hok
    rw [var_expr_local n v p p' hok]
  -- exprC: peek
  · intro ns b p hm2 hgood p' hok k
    simp only [exprC] at hok
    unfold goodPeeks at hgood
    exact hm2 hgood p' hok k
  -- exprC: simple
  · intro e p hni hnw hnv hnp hgood p' hok k
    cases e <;>
      first
      | exact (hni _ _ _ rfl).elim
      | exact (hnw _ _ rfl).elim
      | exact (hnv _ _ rfl).elim
      | exact (hnp _ _ rfl).elim
      | (simp only [exprC] at hok
         rw [simple_expr_local _ _ _ hok])
  -- peek_expr: bind loop errors
  · intro names body p names_len p_1 err herr hgood p' hok k
    exfalso
    have herr2 : peekBindLoop p.var_def names.reverse p.local_def [] =
        Except.error err := herr
    simp only [peek_expr, herr2] at hok
    exact Except.noConfusion hok
  -- peek_expr: body errors
  · intro names body p names_len p_1 ld shadow_names hbind p_2 err herr ih hgood p' hok k
    exfalso
    have hbind2 : peekBindLoop p.var_def names.reverse p.local_def [] =
        Except.ok (ld, shadow_names) := hbind
    have herr2 : exprsC body
        { instrs := p.instrs ++ [Instr.mk Opcode.bind (some names.length)],
          consts := p.consts, var_def := p.var_def, local_def := ld,
          var_count := p.var_count } = Except.error err := herr
    simp only [peek_expr, hbind2, herr2] at hok
    exact Except.noConfusion hok
  -- peek_expr: body ok (shadow restoration)
  · intro names body p names_len p_1 ld shadow_names hbind p_2 p_3 hbody ih hgood p' hok k
    have hbind2 : peekBindLoop p.var_def names.reverse p.local_def [] =
        Except.ok (ld, shadow_names) := hbind
    have hbody2 : exprsC body
        { instrs := p.instrs ++ [Instr.mk Opcode.bind (some names.length)],
          consts := p.consts, var_def := p.var_def, local_def := ld,
          var_count := p.var_count } = Except.ok p_3 := hbody
    simp only [peek_expr, hbind2, hbody2] at hok
    simp only [Bool.and_eq_true, decide_eq_true_eq] at hgood
    have hnd : names.reverse.Nodup := List.nodup_reverse.2 hgood.1
    have hsh := peekBindLoop_shadow names.reverse p.var_def p.local_def []
      ld shadow_names k hnd hbind2
    have hbodyk := ih hgood.2 p_3 hbody2 k
    have hrest : ∀ k2, k2 ∉ names → mapGet ld k2 = mapGet p.local_def k2 := by
      intro k2 hk2
      exact peekBindLoop_notmem names.reverse p.var_def p.local_def [] ld
        shadow_names k2 (by simpa using hk2) hbind2
    have hfinal : mapGet p'.local_def k =
        (mapGet shadow_names.reverse k).or
          (mapGet (names.foldl mapRemove p_3.local_def) k) := by
      split at hok <;> simp only [Except.ok.injEq] at hok <;> rw [← hok]
      · exact foldl_insert_mapGet shadow_names _ k
      · rename_i hlen
        simp only [ne_eq, not_not, List.length_eq_zero] at hlen
        rw [hlen]
        simp [mapGet]
    rw [hfinal, hsh, foldl_remove_mapGet]
    by_cases hmem : k ∈ names
    · simp [hmem, Option.or, mapGet]
      cases hg : mapGet p.local_def k <;> simp [Option.or]
    · have hmem2 : k ∉ names.reverse := by simpa using hmem
      simp [hmem, hmem2, mapGet, Option.or, hbodyk, hrest k hmem]
  -- exprsC: nil
  · intro p hgood p' hok k
    simp only [exprsC, Except.ok.injEq] at hok
    rw [← hok]
  -- exprsC: cons, head errors
  · intro e rest p err herr ih hgood p' hok k
    exfalso
    simp only [exprsC, herr] at hok
    exact Except.noConfusion hok
  -- exprsC: cons, head ok
  · intro e rest p p1 hstep ih1 ih3 hgood p' hok k
    simp only [exprsC, hstep] at hok
    simp only [goodPeeksList, Bool.and_eq_true] at hgood
    rw [ih3 hgood.2 p' hok k, ih1 hgood.1 p1 hstep k]
  -- while_expr: cond errors
  · intro cond while_block p err herr ih hgood p' hok k
    exfalso
    simp only [while_expr, herr] at hok
    exact Except.noConfusion hok
  -- while_expr: body errors
  · intro cond while_block p p1 hcond p_2 err herr ihc ihb hgood p' hok k
    exfalso
    have herr2 : exprsC while_block
        { instrs := p1.instrs ++ [Instr.mk Opcode.jmpIf none], consts := p1.consts,
          var_def := p1.var_def, local_def := p1.local_def,
          var_count := p1.var_count } = Except.error err := herr
    simp only [while_expr, hcond, herr2] at hok
    exact Except.noConfusion hok
  -- while_expr: ok
  · intro cond while_block p p1 hcond p_2 p3 hbody ihc ihb hgood p' hok k
    have hbody2 : exprsC while_block
        { instrs := p1.instrs ++ [Instr.mk Opcode.jmpIf none], consts := p1.consts,
          var_def := p1.var_def, local_def := p1.local_def,
          var_count := p1.var_count } = Except.ok p3 := hbody
    simp only [while_expr, hcond, hbody2, Except.ok.injEq] at hok
    simp only [Bool.and_eq_true] at hgood
    rw [← hok]
    have h1 := ihb hgood.2 p3 hbody2 k
    have h2 := ihc hgood.1 p1 hcond k
    show mapGet p3.local_def k = mapGet p.local_def k
    rw [h1]
    exact h2
  -- if_expr: cond errors
  · intro cond if_branch else_branch p err herr ih hgood p' hok k
    exfalso
    simp only [if_expr, herr] at hok
    exact Except.noConfusion hok
  -- if_expr: branch errors
  · intro cond if_branch else_branch p p1 hcond p_2 err herr ihc iht hgood p' hok k
    exfalso
    have herr2 : exprsC if_branch
        { instrs := p1.instrs ++ [Instr.mk Opcode.jmpIf none], consts := p1.consts,
          var_def := p1.var_def, local_def := p1.local_def,
          var_count := p1.var_count } = Except.error err := herr
    simp only [if_expr, hcond, herr2] at hok
    exact Except.noConfusion hok
  -- if_expr: cond and branch ok, dispatch to the tail
  · intro cond if_branch else_branch p p1 hcond offset p_2 p3 hbranch ihc iht ih6 hgood p' hok k
    have hbranch2 : exprsC if_branch
        { instrs := p1.instrs ++ [Instr.mk Opcode.jmpIf none], consts := p1.consts,
          var_def := p1.var_def, local_def := p1.local_def,
          var_count := p1.var_count } = Except.ok p3 := hbranch
    simp only [if_expr, hcond, hbranch2] at hok
    simp only [Bool.and_eq_true] at hgood
    have h1 := ih6 hgood.2 p' hok k
    have h2 := iht hgood.1.2 p3 hbranch2 k
    have h3 := ihc hgood.1.1 p1 hcond k
    rw [h1]
    show mapGet p3.local_def k = mapGet p.local_def k
    rw [h2]
    exact h3
  -- if_tail_expr: some else branch
  · intro vec offset p ih7 hgood p' hok k
    simp only [if_tail_expr] at hok
    exact ih7 (by simpa using hgood) p' hok k
  -- if_tail_expr: no else branch
  · intro offset p hgood p' hok k
    simp only [if_tail_expr, Except.ok.injEq] at hok
    rw [← hok]
  -- if_else_expr: vec errors
  · intro vec offset p offset2 p_2 p_3 err herr ih hgood p' hok k
    exfalso
    have herr2 : exprsC vec
        { instrs := (p.instrs ++ [Instr.mk Opcode.jmp none]).set offset
            (Instr.mk Opcode.jmpIf (some (p.instrs.length + 1))),
          consts := p.consts, var_def := p.var_def, local_def := p.local_def,
          var_count := p.var_count } = Except.error err := herr
    simp only [if_else_expr, herr2] at hok
    exact Except.noConfusion hok
  -- if_else_expr: vec ok
  · intro vec offset p offset2 p_2 p_3 p4 hvec ih hgood p' hok k
    have hvec2 : exprsC vec
        { instrs := (p.instrs ++ [Instr.mk Opcode.jmp none]).set offset
            (Instr.mk Opcode.jmpIf (some (p.instrs.length + 1))),
          consts := p.consts, var_def := p.var_def, local_def := p.local_def,
          var_count := p.var_count } = Except.ok p4 := hvec
    simp only [if_else_expr, hvec2, Except.ok.injEq] at hok
    rw [← hok]
    have h1 := ih hgood p4 hvec2 k
    show mapGet p4.local_def k = mapGet p.local_def k
    exact h1

end IR

/-- C4 counterexample to the claim as stated: a peek block with the repeated
name list `["x", "x"]` and empty body compiles successfully, but leaves
`x ↦ 0` in the local-binding window although the window was empty before the
block: the second insertion records the first insertion's position as a
shadow, which is re-inserted after the block. -/
theorem C4_counterexample :
    (IR.peek_expr ["x", "x"] [] IR.IrParser.new =
      Except.ok (IR.IrParser.mk
        [IR.Instr.mk IR.Opcode.bind (some 2), IR.Instr.mk IR.Opcode.unbind (some 2)]
        [] [] [("x", 0)] 0))
    ∧ IR.mapGet [("x", 0)] "x" ≠ IR.mapGet IR.IrParser.new.local_def "x" := by
  constructor
  · simp [IR.peek_expr, IR.peekBindLoop, IR.exprsC, IR.mapInsert, IR.mapGet,
          IR.mapRemove, IR.IrParser.new]
  · simp [IR.mapGet, IR.IrParser.new]

/-- C4 (amended): for every peek block whose body compiles successfully and
whose name list — as well as the name list of every peek block nested in its
body — is duplicate-free, the local-binding window after the block resolves
every name exactly as the window before the block did (shadowed outer
bindings included). -/
theorem C4_peek_window_restored (names : List String) (body : List IR.Expr)
    (p p' : IR.IrParser) (k : String)
    (hgood : (decide names.Nodup && IR.goodPeeksList body) = true)
    (hok : IR.peek_expr names body p = Except.ok p') :
    IR.mapGet p'.local_def k = IR.mapGet p.local_def k := by
  have h1 : IR.goodPeeks (IR.Expr.peek names body) = true := by
    unfold IR.goodPeeks
    exact hgood
  have h2 : IR.exprC (IR.Expr.peek names body) p = Except.ok p' := by
    simp only [IR.exprC]
    exact hok
  exact IR.exprC_local_preserved (IR.Expr.peek names body) p h1 p' h2 k

/-- Witness for C4: a peek block binding `x` over a window where `x ↦ 5`
shadows and then exactly restores the binding. -/
theorem C4_peek_window_restored_witness :
    IR.mapGet (IR.IrParser.local_def (IR.IrParser.mk
        [IR.Instr.mk IR.Opcode.bind (some 1), IR.Instr.mk IR.Opcode.unbind (some 1)]
        [] [] [("x", 5)] 0)) "x" =
      IR.mapGet (IR.IrParser.local_def (IR.IrParser.mk [] [] [] [("x", 5)] 0)) "x" :=
  C4_peek_window_restored ["x"] [] (IR.IrParser.mk [] [] [] [("x", 5)] 0)
    (IR.IrParser.mk
      [IR.Instr.mk IR.Opcode.bind (some 1), IR.Instr.mk IR.Opcode.unbind (some 1)]
      [] [] [("x", 5)] 0) "x" (by decide)
    (by simp [IR.peek_expr, IR.peekBindLoop, IR.exprsC, IR.mapInsert, IR.mapGet,
              IR.mapRemove])

/-- C3 counterexample to the claim as stated: the program
`peek ["x"] { x = ... (Assigin) }` compiles successfully although `x` is an
active local binding when the `Assigin` is compiled; the `Assigin` arm checks
only the global table and allocates a fresh global slot, so right after it,
`x` is registered simultaneously as local binding (position 0) and as global
(slot 0). -/
theorem C3_counterexample :
    (IR.parse [IR.Expr.peek ["x"] [IR.Expr.assigin "x"]] =
      Except.ok (IR.Bytecode.mk
        [IR.Instr.mk IR.Opcode.bind (some 1),
         IR.Instr.mk IR.Opcode.globalStore (some 0),
         IR.Instr.mk IR.Opcode.unbind (some 1)] []))
    ∧ (IR.simple_expr (IR.Expr.assigin "x")
        (IR.IrParser.mk [IR.Instr.mk IR.Opcode.bind (some 1)] [] [] [("x", 0)] 0) =
      Except.ok (IR.IrParser.mk
        [IR.Instr.mk IR.Opcode.bind (some 1),
         IR.Instr.mk IR.Opcode.globalStore (some 0)]
        [] [("x", 0)] [("x", 0)] 1))
    ∧ (IR.mapGet [("x", 0)] "x" = some 0) := by
  refine ⟨?_, rfl, rfl⟩
  simp [IR.parse, IR.exprsC, IR.exprC, IR.peek_expr, IR.peekBindLoop,
        IR.simple_expr, IR.mapInsert, IR.mapGet, IR.mapRemove, IR.IrParser.new]

/-- C3 (amended): declaring a peek name that exists as a global is a compile
error, and declaring a var whose name exists as a local binding is a compile
error; but `Assigin` of a name that is not a global allocates a fresh global
slot without consulting the local-binding window, so a name that exists only
as a local binding becomes registered in both namespaces. -/
theorem C3_namespace_checks :
    (∀ (names : List String) (body : List IR.Expr) (p : IR.IrParser),
      (∃ e ∈ names, (IR.mapGet p.var_def e).isSome) →
      ∃ err, IR.peek_expr names body p = Except.error err) ∧
    (∀ (name : String) (value : List IR.Expr) (p : IR.IrParser),
      (IR.mapGet p.local_def name).isSome = true →
      IR.var_expr name value p =
        Except.error (IR.CErr.generic
          ("Variable " ++ name ++ " is already a peek name"))) ∧
    (∀ (val : String) (p : IR.IrParser),
      IR.mapGet p.var_def val = none →
      IR.simple_expr (IR.Expr.assigin val) p =
        Except.ok { p with
          var_count := p.var_count + 1
          var_def := (IR.mapInsert p.var_def val p.var_count).1
          instrs := p.instrs ++ [IR.Instr.mk IR.Opcode.globalStore (some p.var_count)] }) := by
  refine ⟨?_, ?_, ?_⟩
  · intro names body p hex
    obtain ⟨err, herr⟩ := IR.peekBindLoop_global_error names.reverse p.var_def
      p.local_def []
      (by
        obtain ⟨e, he, hs⟩ := hex
        exact ⟨e, by simpa using he, hs⟩)
    refine ⟨err, ?_⟩
    simp only [IR.peek_expr, herr]
  · intro name value p h
    simp only [IR.var_expr, h, if_true]
  · intro val p h
    simp only [IR.simple_expr, h]

/-- Witness for C3 at concrete states: a peek over an existing global errors,
a var over an existing local errors, and an `Assigin` over a local-only name
allocates a global slot. -/
theorem C3_namespace_checks_witness :
    (∃ err, IR.peek_expr ["x"] [] (IR.IrParser.mk [] [] [("x", 0)] [] 1) =
      Except.error err) ∧
    (IR.var_expr "y" [] (IR.IrParser.mk [] [] [] [("y", 0)] 0) =
      Except.error (IR.CErr.generic "Variable y is already a peek name")) ∧
    (IR.simple_expr (IR.Expr.assigin "z") (IR.IrParser.mk [] [] [] [("z", 0)] 0) =
      Except.ok { IR.IrParser.mk [] [] [] [("z", 0)] 0 with
        var_count := 1
        var_def := (IR.mapInsert [] "z" 0).1
        instrs := [IR.Instr.mk IR.Opcode.globalStore (some 0)] }) :=
  ⟨C3_namespace_checks.1 ["x"] [] (IR.IrParser.mk [] [] [("x", 0)] [] 1)
      ⟨"x", by simp, by simp [IR.mapGet]⟩,
   C3_namespace_checks.2.1 "y" [] (IR.IrParser.mk [] [] [] [("y", 0)] 0)
      (by simp [IR.mapGet]),
   C3_namespace_checks.2.2 "z" (IR.IrParser.mk [] [] [] [("z", 0)] 0) rfl⟩

namespace IR

theorem jumpTargetsLe_mono (ins : Instr) (n m : Nat) (h : n ≤ m)
    (hj : jumpTargetsLe ins n) : jumpTargetsLe ins m := by
  intro ho
  obtain ⟨t, ht, hle⟩ := hj ho
  exact ⟨t, ht, le_trans hle h⟩

theorem listEvolve_refl (l : List Instr) : listEvolve l l :=
  ⟨le_refl _, fun _ _ => rfl, fun i _ hi hg => by
    rw [List.get?_len_le hi] at hg
    exact Option.noConfusion hg⟩

theorem listEvolve_trans (l1 l2 l3 : List Instr)
    (h12 : listEvolve l1 l2) (h23 : listEvolve l2 l3) : listEvolve l1 l3 := by
  obtain ⟨m12, b12, c12⟩ := h12
  obtain ⟨m23, b23, c23⟩ := h23
  refine ⟨le_trans m12 m23, ?_, ?_⟩
  · intro i hi
    rw [b23 i (lt_of_lt_of_le hi m12), b12 i hi]
  · intro i ins hi hg
    by_cases h2 : i < l2.length
    · rw [b23 i h2] at hg
      exact jumpTargetsLe_mono ins l2.length l3.length m23 (c12 i ins hi hg)
    · exact c23 i ins (by omega) hg

theorem listEvolve_append (l : List Instr) (ins : Instr)
    (h : jumpTargetsLe ins (l.length + 1)) : listEvolve l (l ++ [ins]) := by
  refine ⟨by simp, ?_, ?_⟩
  · intro i hi
    exact List.get?_append hi
  · intro i ins2 hi hg
    by_cases he : i = l.length
    · rw [he, List.get?_concat_length] at hg
      cases hg
      simpa using h
    · rw [List.get?_len_le (by simp; omega)] at hg
      exact Option.noConfusion hg

theorem simple_expr_evolve (e : Expr) (p p' : IrParser)
    (h : simple_expr e p = Except.ok p') : listEvolve p.instrs p'.instrs := by
  cases e <;> simp only [simple_expr] at h <;> (repeat' split at h) <;>
    first
    | (simp only [Except.ok.injEq] at h
       subst h
       exact listEvolve_append _ _ (by intro ho; rcases ho with ho | ho <;> simp at ho))
    | simp at h

theorem simple_exprsC_evolve :
    ∀ (l : List Expr) (p p' : IrParser),
      simple_exprsC l p = Except.ok p' → listEvolve p.instrs p'.instrs := by
  intro l
  induction l with
  | nil =>
    intro p p' h
    simp only [simple_exprsC, Except.ok.injEq] at h
    subst h
    exact listEvolve_refl _
  | cons e rest ih =>
    intro p p' h
    simp only [simple_exprsC] at h
    split at h
    · simp at h
    · rename_i p1 hstep
      exact listEvolve_trans _ _ _ (simple_expr_evolve e p p1 hstep) (ih _ _ h)

theorem var_expr_evolve (n : String) (v : List Expr) (p p' : IrParser)
    (h : var_expr n v p = Except.ok p') : listEvolve p.instrs p'.instrs := by
  simp only [var_expr] at h
  split at h
  · simp at h
  · split at h
    · simp at h
    · rename_i p1 hstep
      have h1 := simple_exprsC_evolve v _ p1 hstep
      simp only [Except.ok.injEq] at h
      subst h
      refine listEvolve_trans _ _ _ h1 ?_
      exact listEvolve_append _ _ (by intro ho; rcases ho with ho | ho <;> simp at ho)

end IR

namespace IR

theorem exprC_evolve :
    ∀ (e : Expr) (p : IrParser) (p' : IrParser),
      exprC e p = Except.ok p' → listEvolve p.instrs p'.instrs := by
  refine exprC.induct
    (fun e p => ∀ p', exprC e p = Except.ok p' → listEvolve p.instrs p'.instrs)
    (fun ns b p => ∀ p', peek_expr ns b p = Except.ok p' →
      listEvolve p.instrs p'.instrs)
    (fun l p => ∀ p', exprsC l p = Except.ok p' → listEvolve p.instrs p'.instrs)
    (fun c b p => ∀ p', while_expr c b p = Except.ok p' →
      listEvolve p.instrs p'.instrs)
    (fun c t e p => ∀ p', if_expr c t e p = Except.ok p' →
      listEvolve p.instrs p'.instrs)
    (fun eb offset p => ∀ p', if_tail_expr eb offset p = Except.ok p' →
      offset < p.instrs.length → patchEvolve offset p.instrs p'.instrs)
    (fun vec offset p => ∀ p', if_else_expr vec offset p = Except.ok p' →
      offset < p.instrs.length → patchEvolve offset p.instrs p'.instrs)
    ?_ ?_ ?_ ?_ ?_ ?_ ?_ ?_ ?_ ?_ ?_ ?_ ?_ ?_ ?_ ?_ ?_ ?_ ?_ ?_ ?_
  -- exprC: if
  · intro c t e p hm5 p' hok
    simp only [exprC] at hok
    exact hm5 p' hok
  -- exprC: while
  · intro c b p hm4 p' hok
    simp only [exprC] at hok
    exact hm4 p' hok
  -- exprC: var
  · intro n v p p' hok
    simp only [exprC] at hok
    exact var_expr_evolve n v p p' hok
  -- exprC: peek
  · intro ns b p hm2 p' hok
    simp only [exprC] at hok
    exact hm2 p' hok
  -- exprC: simple
  · intro e p hni hnw hnv hnp p' hok
    cases e <;>
      first
      | exact (hni _ _ _ rfl).elim
      | exact (hnw _ _ rfl).elim
      | exact (hnv _ _ rfl).elim
      | exact (hnp _ _ rfl).elim
      | (simp only [exprC] at hok
         exact simple_expr_evolve _ _ _ hok)
  -- peek_expr: bind loop errors
  · intro names body p names_len p_1 err herr p' hok
    exfalso
    have herr2 : peekBindLoop p.var_def names.reverse p.local_def [] =
        Except.error err := herr
    simp only [peek_expr, herr2] at hok
    exact Except.noConfusion hok
  -- peek_expr: body errors
  · intro names body p names_len p_1 ld shadow_names hbind p_2 err herr ih p' hok
    exfalso
    have hbind2 : peekBindLoop p.var_def names.reverse p.local_def [] =
        Except.ok (ld, shadow_names) := hbind
    have herr2 : exprsC body
        { instrs := p.instrs ++ [Instr.mk Opcode.bind (some names.length)],
          consts := p.consts, var_def := p.var_def, local_def := ld,
          var_count := p.var_count } = Except.error err := herr
    simp only [peek_expr, hbind2, herr2] at hok
    exact Except.noConfusion hok
  -- peek_expr: body ok
  · intro names body p names_len p_1 ld shadow_names hbind p_2 p_3 hbody ih p' hok
    have hbind2 : peekBindLoop p.var_def names.reverse p.local_def [] =
        Except.ok (ld, shadow_names) := hbind
    have hbody2 : exprsC body
        { instrs := p.instrs ++ [Instr.mk Opcode.bind (some names.length)],
          consts := p.consts, var_def := p.var_def, local_def := ld,
          var_count := p.var_count } = Except.ok p_3 := hbody
    simp only [peek_expr, hbind2, hbody2] at hok
    have hb : listEvolve (p.instrs ++ [Instr.mk Opcode.bind (some names.length)])
        p_3.instrs := ih p_3 hbody2
    have e1 := listEvolve_append p.instrs (Instr.mk Opcode.bind (some names.length))
      (by intro ho; rcases ho with ho | ho <;> simp at ho)
    have e3 := listEvolve_append p_3.instrs
      (Instr.mk Opcode.unbind (some names.length))
      (by intro ho; rcases ho with ho | ho <;> simp at ho)
    split at hok <;> simp only [Except.ok.injEq] at hok <;> subst hok <;>
      exact listEvolve_trans _ _ _ (listEvolve_trans _ _ _ e1 hb) e3
  -- exprsC: nil
  · intro p p' hok
    simp only [exprsC, Except.ok.injEq] at hok
    subst hok
    exact listEvolve_refl _
  -- exprsC: cons, head errors
  · intro e rest p err herr ih p' hok
    exfalso
    simp only [exprsC, herr] at hok
    exact Except.noConfusion hok
  -- exprsC: cons, head ok
  · intro e rest p p1 hstep ih1 ih3 p' hok
    simp only [exprsC, hstep] at hok
    exact listEvolve_trans _ _ _ (ih1 p1 hstep) (ih3 p' hok)
  -- while_expr: cond errors
  · intro cond while_block p err herr ih p' hok
    exfalso
    simp only [while_expr, herr] at hok
    exact Except.noConfusion hok
  -- while_expr: body errors
  · intro cond while_block p p1 hcond p_2 err herr ihc ihb p' hok
    exfalso
    have herr2 : exprsC while_block
        { instrs := p1.instrs ++ [Instr.mk Opcode.jmpIf none], consts := p1.consts,
          var_def := p1.var_def, local_def := p1.local_def,
          var_count := p1.var_count } = Except.error err := herr
    simp only [while_expr, hcond, herr2] at hok
    exact Except.noConfusion hok
  -- while_expr: ok
  · intro cond while_block p p1 hcond p_2 p3 hbody ihc ihb p' hok
    have hbody2 : exprsC while_block
        { instrs := p1.instrs ++ [Instr.mk Opcode.jmpIf none], consts := p1.consts,
          var_def := p1.var_def, local_def := p1.local_def,
          var_count := p1.var_count } = Except.ok p3 := hbody
    simp only [while_expr, hcond, hbody2, Except.ok.injEq] at hok
    subst hok
    obtain ⟨mc, bc, cc⟩ := ihc p1 hcond
    obtain ⟨mb, bb, cb⟩ :
        listEvolve (p1.instrs ++ [Instr.mk Opcode.jmpIf none]) p3.instrs :=
      ihb p3 hbody2
    have hlenb : p1.instrs.length + 1 ≤ p3.instrs.length := by simpa using mb
    show listEvolve p.instrs
      ((p3.instrs ++ [Instr.mk Opcode.jmp (some p.instrs.length)]).set
        p1.instrs.length (Instr.mk Opcode.jmpIf
          (some (p3.instrs ++ [Instr.mk Opcode.jmp (some p.instrs.length)]).length)))
    rw [show (p3.instrs ++ [Instr.mk Opcode.jmp (some p.instrs.length)]).length =
        p3.instrs.length + 1 from by simp]
    refine ⟨by simp; omega, ?_, ?_⟩
    · intro i hi
      rw [List.get?_set_ne _ _ (by omega : p1.instrs.length ≠ i),
          List.get?_append (by omega : i < p3.instrs.length),
          bb i (by simp; omega),
          List.get?_append (by omega : i < p1.instrs.length), bc i hi]
    · intro i ins hi hins
      have hlen' : ((p3.instrs ++ [Instr.mk Opcode.jmp (some p.instrs.length)]).set
          p1.instrs.length
          (Instr.mk Opcode.jmpIf (some (p3.instrs.length + 1)))).length =
          p3.instrs.length + 1 := by simp
      rw [hlen']
      by_cases hio : i = p1.instrs.length
      · subst hio
        rw [List.get?_set_eq_of_lt _ (by simp; omega)] at hins
        have := Option.some.inj hins
        subst this
        intro _
        exact ⟨p3.instrs.length + 1, rfl, by omega⟩
      · rw [List.get?_set_ne _ _ (fun hh => hio hh.symm)] at hins
        by_cases hi3 : i < p3.instrs.length
        · rw [List.get?_append hi3] at hins
          by_cases hi1 : i < p1.instrs.length
          · rw [bb i (by simp; omega), List.get?_append hi1] at hins
            exact jumpTargetsLe_mono _ _ _ (by omega) (cc i ins hi hins)
          · have hge : (p1.instrs ++ [Instr.mk Opcode.jmpIf none]).length ≤ i := by
              simp
              omega
            exact jumpTargetsLe_mono _ _ _ (by omega) (cb i ins hge hins)
        · by_cases hej : i = p3.instrs.length
          · subst hej
            rw [List.get?_concat_length] at hins
            have := Option.some.inj hins
            subst this
            intro _
            exact ⟨p.instrs.length, rfl, by omega⟩
          · rw [List.get?_len_le (by simp; omega)] at hins
            exact Option.noConfusion hins
  -- if_expr: cond errors
  · intro cond if_branch else_branch p err herr ih p' hok
    exfalso
    simp only [if_expr, herr] at hok
    exact Except.noConfusion hok
  -- if_expr: branch errors
  · intro cond if_branch else_branch p p1 hcond p_2 err herr ihc iht p' hok
    exfalso
    have herr2 : exprsC if_branch
        { instrs := p1.instrs ++ [Instr.mk Opcode.jmpIf none], consts := p1.consts,
          var_def := p1.var_def, local_def := p1.local_def,
          var_count := p1.var_count } = Except.error err := herr
    simp only [if_expr, hcond, herr2] at hok
    exact Except.noConfusion hok
  -- if_expr: cond and branch ok, dispatch to the tail
  · intro cond if_branch else_branch p p1 hcond offset p_2 p3 hbranch ihc iht ih6 p' hok
    have hbranch2 : exprsC if_branch
        { instrs := p1.instrs ++ [Instr.mk Opcode.jmpIf none], consts := p1.consts,
          var_def := p1.var_def, local_def := p1.local_def,
          var_count := p1.var_count } = Except.ok p3 := hbranch
    simp only [if_expr, hcond, hbranch2] at hok
    obtain ⟨mc, bc, cc⟩ := ihc p1 hcond
    obtain ⟨mt, bt, ct⟩ :
        listEvolve (p1.instrs ++ [Instr.mk Opcode.jmpIf none]) p3.instrs :=
      iht p3 hbranch2
    have hlenb : p1.instrs.length + 1 ≤ p3.instrs.length := by simpa using mt
    obtain ⟨m6, b6, ⟨t6, hget6, ht6⟩, c6⟩ :
        patchEvolve p1.instrs.length p3.instrs p'.instrs :=
      ih6 p' hok (by omega)
    refine ⟨by omega, ?_, ?_⟩
    · intro i hi
      rw [b6 i (by omega) (by omega), bt i (by simp; omega),
          List.get?_append (by omega : i < p1.instrs.length), bc i hi]
    · intro i ins hi hins
      by_cases hio : i = p1.instrs.length
      · subst hio
        rw [hget6] at hins
        have := Option.some.inj hins
        subst this
        intro _
        exact ⟨t6, rfl, ht6⟩
      · by_cases hi3 : i < p3.instrs.length
        · rw [b6 i hi3 hio] at hins
          by_cases hi1 : i < p1.instrs.length
          · rw [bt i (by simp; omega), List.get?_append hi1] at hins
            exact jumpTargetsLe_mono _ _ _ (by omega) (cc i ins hi hins)
          · have hge : (p1.instrs ++ [Instr.mk Opcode.jmpIf none]).length ≤ i := by
              simp
              omega
            exact jumpTargetsLe_mono _ _ _ (by omega) (ct i ins hge hins)
        · exact c6 i ins (by omega) hins
  -- if_tail_expr: some else branch
  · intro vec offset p ih7 p' hok hoff
    simp only [if_tail_expr] at hok
    exact ih7 p' hok hoff
  -- if_tail_expr: no else branch
  · intro offset p p' hok hoff
    simp only [if_tail_expr, Except.ok.injEq] at hok
    subst hok
    show patchEvolve offset p.instrs
      (p.instrs.set offset (Instr.mk Opcode.jmpIf (some p.instrs.length)))
    refine ⟨by simp, ?_, ?_, ?_⟩
    · intro i hi hne
      exact List.get?_set_ne _ _ (fun hh => hne hh.symm)
    · exact ⟨p.instrs.length, by rw [List.get?_set_eq_of_lt _ hoff], by simp⟩
    · intro i ins hi hins
      rw [List.get?_len_le (by simp; omega)] at hins
      exact Option.noConfusion hins
  -- if_else_expr: else body errors
  · intro vec offset p offset2 p_2 p_3 err herr ih p' hok hoff
    exfalso
    have herr2 : exprsC vec
        { instrs := (p.instrs ++ [Instr.mk Opcode.jmp none]).set offset
            (Instr.mk Opcode.jmpIf (some (p.instrs.length + 1))),
          consts := p.consts, var_def := p.var_def, local_def := p.local_def,
          var_count := p.var_count } = Except.error err := herr
    simp only [if_else_expr, herr2] at hok
    exact Except.noConfusion hok
  -- if_else_expr: else body ok
  · intro vec offset p offset2 p_2 p_3 p4 hvec ih p' hok hoff
    have hvec2 : exprsC vec
        { instrs := (p.instrs ++ [Instr.mk Opcode.jmp none]).set offset
            (Instr.mk Opcode.jmpIf (some (p.instrs.length + 1))),
          consts := p.consts, var_def := p.var_def, local_def := p.local_def,
          var_count := p.var_count } = Except.ok p4 := hvec
    simp only [if_else_expr, hvec2, Except.ok.injEq] at hok
    subst hok
    obtain ⟨mv, bv, cv⟩ :
        listEvolve ((p.instrs ++ [Instr.mk Opcode.jmp none]).set offset
          (Instr.mk Opcode.jmpIf (some (p.instrs.length + 1)))) p4.instrs :=
      ih p4 hvec2
    have hL3 : ((p.instrs ++ [Instr.mk Opcode.jmp none]).set offset
        (Instr.mk Opcode.jmpIf (some (p.instrs.length + 1)))).length =
        p.instrs.length + 1 := by simp
    rw [hL3] at mv
    show patchEvolve offset p.instrs
      (p4.instrs.set p.instrs.length (Instr.mk Opcode.jmp (some p4.instrs.length)))
    refine ⟨?_, ?_, ?_, ?_⟩
    · rw [List.length_set]
      omega
    · intro i hi hne
      rw [List.get?_set_ne _ _ (by omega : p.instrs.length ≠ i),
          bv i (by rw [hL3]; omega),
          List.get?_set_ne _ _ (fun hh => hne hh.symm),
          List.get?_append hi]
    · refine ⟨p.instrs.length + 1, ?_, ?_⟩
      · rw [List.get?_set_ne _ _ (by omega : p.instrs.length ≠ offset),
            bv offset (by rw [hL3]; omega),
            List.get?_set_eq_of_lt _ (by simp; omega)]
      · rw [List.length_set]
        omega
    · intro i ins hi hins
      rw [List.length_set]
      by_cases hip : i = p.instrs.length
      · subst hip
        rw [List.get?_set_eq_of_lt _ (by omega)] at hins
        have := Option.some.inj hins
        subst this
        intro _
        exact ⟨p4.instrs.length, rfl, le_refl _⟩
      · rw [List.get?_set_ne _ _ (fun hh => hip hh.symm)] at hins
        exact cv i ins (by rw [hL3]; omega) hins

end IR

namespace IR

theorem exprsC_evolve :
    ∀ (l : List Expr) (p p' : IrParser),
      exprsC l p = Except.ok p' → listEvolve p.instrs p'.instrs := by
  intro l
  induction l with
  | nil =>
    intro p p' h
    simp only [exprsC, Except.ok.injEq] at h
    subst h
    exact listEvolve_refl _
  | cons e rest ih =>
    intro p p' h
    simp only [exprsC] at h
    split at h
    · exact Except.noConfusion h
    · rename_i p1 hstep
      exact listEvolve_trans _ _ _ (exprC_evolve e p p1 hstep) (ih _ _ h)

end IR

/-- C1 counterexample to the claim as stated: the one-expression program
`if (eq) {}` compiles to `[Eq, JmpIf 2]`; the patched jump target 2 equals
the program length and is therefore not a valid instruction index of the
bytecode (the valid indices are 0 and 1). -/
theorem C1_counterexample :
    (IR.parse [IR.Expr.ifE [IR.Expr.op IR.Operation.eq] [] none] =
      Except.ok (IR.Bytecode.mk
        [IR.Instr.mk (IR.Opcode.opOf IR.Operation.eq) none,
         IR.Instr.mk IR.Opcode.jmpIf (some 2)] []))
    ∧ ¬ (2 < 2) := by
  constructor
  · simp [IR.parse, IR.exprsC, IR.exprC, IR.if_expr, IR.if_tail_expr,
          IR.simple_expr, IR.IrParser.new]
  · decide

/-- C1 (amended): for every expression sequence that compiles successfully,
every `Jmp` and `JmpIf` instruction of the resulting bytecode carries an
operand `some t` with `t` at most the length of the bytecode: no placeholder
with a missing target survives compilation, but when an if-block or
while-block is the last expression of the program the patched target equals
the program length — one past the last instruction, not a valid instruction
index. -/
theorem C1_jump_targets_bounded (prog : List IR.Expr) (bc : IR.Bytecode)
    (h : IR.parse prog = Except.ok bc) :
    ∀ i ins, bc.program.get? i = some ins →
      (ins.opcode = IR.Opcode.jmp ∨ ins.opcode = IR.Opcode.jmpIf) →
      ∃ t, ins.operands = some t ∧ t ≤ bc.program.length := by
  intro i ins hget hop
  simp only [IR.parse] at h
  split at h
  · exact Except.noConfusion h
  · rename_i p hq
    simp only [Except.ok.injEq] at h
    subst h
    obtain ⟨_, _, hC⟩ := IR.exprsC_evolve prog IR.IrParser.new p hq
    exact hC i ins (Nat.zero_le i) hget hop

/-- Witness for C1 on the program `if (eq) {}` at the `JmpIf` instruction. -/
theorem C1_jump_targets_bounded_witness :
    ∃ t, (IR.Instr.mk IR.Opcode.jmpIf (some 2)).operands = some t ∧
      t ≤ (IR.Bytecode.mk
        [IR.Instr.mk (IR.Opcode.opOf IR.Operation.eq) none,
         IR.Instr.mk IR.Opcode.jmpIf (some 2)] []).program.length :=
  C1_jump_targets_bounded [IR.Expr.ifE [IR.Expr.op IR.Operation.eq] [] none]
    (IR.Bytecode.mk
      [IR.Instr.mk (IR.Opcode.opOf IR.Operation.eq) none,
       IR.Instr.mk IR.Opcode.jmpIf (some 2)] [])
    (by simp [IR.parse, IR.exprsC, IR.exprC, IR.if_expr, IR.if_tail_expr,
              IR.simple_expr, IR.IrParser.new])
    1 (IR.Instr.mk IR.Opcode.jmpIf (some 2)) rfl (Or.inr rfl)
